import Mathlib

/-!
The fetch / parse / aggregate pipeline of multi-apache2

A shallow embedding of `multi-apache2.go` and the properties of its
parsers (`parseApache2Status`, `parseApache2Scoreboard`), of the port worker
(`fetchMetrics4Port`), of the aggregation loop (`FetchMetrics`), of the
endpoint fetcher (`getApache2Metrics`) and of the table `graphdef`.

Modelling conventions

* A Go `string` is a `List Char` (`GoString`); the documents are taken to be
  valid UTF-8, so that `strings.Split(s, "")` yields one piece per character.
* A Go `map[string]interface{}` whose values are all `float64` is an
  association list with pairwise distinct keys (`GoMap`); the nil map is
  `none` where the distinction matters.
* `float64`, `strconv.ParseFloat` and `strconv.Quote` belong to the Go runtime
  and library, not to this program: they are the fields of `Runtime`.
* The calls into `net/http` (`http.NewRequest`, `http.DefaultClient.Do`, the
  read of the body) are the fields of `HTTP` and `Response`; the functions
  `strings.SplitN`, `strings.TrimSpace` and `http.CanonicalHeaderKey` are
  written out as the Go library documents them.
* A Go function that can panic returns `Exec`.
* The goroutines of `FetchMetrics` are modelled by the sequence of values in
  the order in which the channel delivers them.
-/

namespace MultiApache2

/-! ## Strings -/

/-- A Go string, as its sequence of characters. -/
abbrev GoString := List Char

namespace strings

/-- The call `strings.Split(s, sep)` for a separator `sep` of one character:
the pieces of `s` between the occurrences of `sep`, always at least one. -/
def Split (s : GoString) (sep : Char) : List GoString :=
  match s with
  | [] => [[]]
  | c :: cs =>
    if c = sep then [] :: Split cs sep
    else
      match Split cs sep with
      | [] => [[c]]
      | r :: rs => (c :: r) :: rs

/-- The call `strings.Split(s, "")`: `s` exploded into its characters. -/
def SplitChars (s : GoString) : List GoString :=
  s.map (fun c => [c])

/-- The call `strings.Trim(s, cutset)` for a cutset of one character. -/
def Trim (s : GoString) (cut : Char) : GoString :=
  ((s.dropWhile (fun c => c = cut)).reverse.dropWhile (fun c => c = cut)).reverse

end strings

/-- The call `regexp.MatchString("Scoreboard(.*)", line)`. The pattern is not
anchored and its group `(.*)` matches the empty string, so the match succeeds
exactly when some suffix of `line` starts with `Scoreboard`; the pattern
compiles, so the error result is always nil and is left out. -/
def matchScoreboard (line : GoString) : Bool :=
  line.tails.any (fun t => "Scoreboard".toList.isPrefixOf t)

/-- The verb `%d` of `fmt.Sprintf` applied to an `int`. -/
def formatInt (n : Int) : GoString :=
  match n with
  | Int.ofNat k => Nat.toDigits 10 k
  | Int.negSucc k => '-' :: Nat.toDigits 10 (k + 1)

/-! ## Maps, errors and the runtime -/

/-- A Go map with string keys: its entries. In a map of the program the keys
are pairwise distinct (`mapWF`). -/
abbrev GoMap (V : Type) := List (GoString × V)

/-- The read `m[k]` with its presence flag. -/
def mapGet {V : Type} (m : GoMap V) (k : GoString) : Option V :=
  match m with
  | [] => none
  | e :: rest => if e.1 = k then some e.2 else mapGet rest k

/-- The assignment `m[k] = v`. -/
def mapSet {V : Type} (m : GoMap V) (k : GoString) (v : V) : GoMap V :=
  (k, v) :: m.filter (fun e => !decide (e.1 = k))

/-- The builtin `len(m)`. -/
def mapLen {V : Type} (m : GoMap V) : Nat :=
  m.length

/-- The keys of a Go map are pairwise distinct. -/
def mapWF {V : Type} (m : GoMap V) : Prop :=
  (m.map Prod.fst).Nodup

/-- The value `*strconv.NumError`; `Err` is the text of the wrapped error
(`strconv.ErrSyntax` or `strconv.ErrRange`). -/
structure NumError where
  Func : GoString
  Num : GoString
  Err : GoString
deriving DecidableEq

/-- The error values the program handles. -/
inductive GoError where
  /-- the result of `errors.New(s)` or of `fmt.Errorf` without the verb `%w` -/
  | errorString (s : GoString)
  /-- the error of `strconv.ParseFloat` -/
  | numError (e : NumError)
  /-- an error of `net/http` or `io`, of which only the text is observed -/
  | other (s : GoString)
deriving DecidableEq

/-- What the program takes from the Go runtime and library: the `float64`
values `F` with the constant `0.0` and the operation `c + 1.0`, the function
`strconv.ParseFloat(s, 64)` (its value and its error, nil being `none`) and
`strconv.Quote`. -/
structure Runtime (F : Type) where
  zero : F
  addOne : F → F
  ParseFloat : GoString → F × Option NumError
  Quote : GoString → GoString

/-- The method `Error()` of an error value. -/
def GoError.Error {F : Type} (R : Runtime F) : GoError → GoString
  | GoError.errorString s => s
  | GoError.numError e =>
    "strconv.".toList ++ e.Func ++ ": parsing ".toList ++ R.Quote e.Num ++ ": ".toList ++ e.Err
  | GoError.other s => s

/-- The outcome of a call that can panic. -/
inductive Exec (α : Type) where
  | ret (a : α)
  | panic
deriving DecidableEq

/-! ## The status parser -/

/-- The table `Params` of `parseApache2Status`. -/
def Params : GoMap GoString :=
  [ ("Total Accesses".toList, "Req.requests".toList),
    ("Total kBytes".toList, "Bytes.bytes_sent".toList),
    ("CPULoad".toList, "Cpu.cpu_load".toList),
    ("BusyWorkers".toList, "Workers.busy_workers".toList),
    ("IdleWorkers".toList, "Workers.idle_workers".toList) ]

/-- The loop of `parseApache2Status` over the lines still to be read: the
metric set it leaves and the error it returns early (`none` when it runs to
its end). Indexing `record` out of range panics. -/
def statusLoop {F : Type} (R : Runtime F) :
    List GoString → GoMap F → Exec (GoMap F × Option GoError)
  | [], p => Exec.ret (p, none)
  | line :: rest, p =>
    let record := strings.Split line ':'
    match record[0]? with
    | none => Exec.panic
    | some r0 =>
      match mapGet Params r0 with
      | none => statusLoop R rest p
      | some name =>
        match record[1]? with
        | none => Exec.panic
        | some r1 =>
          let parsed := R.ParseFloat (strings.Trim r1 ' ')
          let p1 := mapSet p name parsed.1
          match parsed.2 with
          | some errParse => Exec.ret (p1, some (GoError.numError errParse))
          | none => statusLoop R rest p1

/-- The function `parseApache2Status(str, p)`: the metric set after the call
and the error returned. -/
def parseApache2Status {F : Type} (R : Runtime F) (str : GoString) (p : GoMap F) :
    Exec (GoMap F × Option GoError) :=
  match statusLoop R (strings.Split str '\n') p with
  | Exec.panic => Exec.panic
  | Exec.ret (p1, some e) => Exec.ret (p1, some e)
  | Exec.ret (p1, none) =>
    if mapLen p1 = 0 then
      Exec.ret (p1, some (GoError.errorString "Status data not found.".toList))
    else Exec.ret (p1, none)

/-! ## The scoreboard parser -/

/-- The name `fmt.Sprintf("Scoreboard.score-%s", sb)`. -/
def scoreName (sb : GoString) : GoString :=
  "Scoreboard.score-".toList ++ sb

/-- The inner loop of `parseApache2Scoreboard`: one increment per piece. -/
def countScores {F : Type} (R : Runtime F) : List GoString → GoMap F → GoMap F
  | [], p => p
  | sb :: rest, p =>
    let name := scoreName sb
    let c :=
      match mapGet p name with
      | some c => c
      | none => R.zero
    countScores R rest (mapSet p name (R.addOne c))

/-- The loop of `parseApache2Scoreboard` over the lines still to be read,
with the `errors.New` that follows it. -/
def scoreboardLoop {F : Type} (R : Runtime F) :
    List GoString → GoMap F → Exec (GoMap F × Option GoError)
  | [], p => Exec.ret (p, some (GoError.errorString "Scoreboard data is not found.".toList))
  | line :: rest, p =>
    if matchScoreboard line = false then scoreboardLoop R rest p
    else
      let record := strings.Split line ':'
      match record[1]? with
      | none => Exec.panic
      | some r1 =>
        Exec.ret (countScores R (strings.SplitChars (strings.Trim r1 ' ')) p, none)

/-- The function `parseApache2Scoreboard(str, p)`: the metric set after the
call and the error returned. -/
def parseApache2Scoreboard {F : Type} (R : Runtime F) (str : GoString) (p : GoMap F) :
    Exec (GoMap F × Option GoError) :=
  scoreboardLoop R (strings.Split str '\n') p

/-! ## The port worker -/

/-- The struct `Metrics4Channel`; a nil `Stat` and a nil `Err` are `none`. -/
structure Metrics4Channel (F : Type) where
  Port : Int
  Stat : Option (GoMap F)
  Err : Option GoError

/-- The error `fmt.Errorf("Failed at port=%d: %s", port, err)`. -/
def failedAt {F : Type} (R : Runtime F) (port : Int) (err : GoError) : GoError :=
  GoError.errorString ("Failed at port=".toList ++ formatInt port ++ ": ".toList ++ err.Error R)

/-- What a run of `fetchMetrics4Port` leaves behind: the value its deferred
`send2Channel` posts, and whether the goroutine ended in a panic (which the
deferred send precedes). -/
structure WorkerRun (F : Type) where
  posted : Metrics4Channel F
  panicked : Bool

/-- The function `fetchMetrics4Port`, given the two results `(data, err)` of
its call to `getApache2Metrics`. -/
def fetchMetrics4Port {F : Type} (R : Runtime F) (port : Int)
    (fetched : GoString × Option GoError) : WorkerRun F :=
  match fetched.2 with
  | some err => ⟨⟨port, none, some (failedAt R port err)⟩, false⟩
  | none =>
    match parseApache2Status R fetched.1 [] with
    | Exec.panic => ⟨⟨port, none, none⟩, true⟩
    | Exec.ret (_, some errStat) => ⟨⟨port, none, some (failedAt R port errStat)⟩, false⟩
    | Exec.ret (stat, none) =>
      match parseApache2Scoreboard R fetched.1 stat with
      | Exec.panic => ⟨⟨port, none, none⟩, true⟩
      | Exec.ret (_, some errScore) => ⟨⟨port, none, some (failedAt R port errScore)⟩, false⟩
      | Exec.ret (stat1, none) => ⟨⟨port, some stat1, none⟩, false⟩

/-! ## The aggregation -/

/-- The key `fmt.Sprintf("apache2.%d.%s", port, key)`. -/
def metricKey (port : Int) (key : GoString) : GoString :=
  "apache2.".toList ++ formatInt port ++ ".".toList ++ key

/-- The loop `for key, val := range stat.Stat` of `FetchMetrics`, over the
entries of the map. -/
def mergeStat {F : Type} (port : Int) : GoMap F → GoMap F → GoMap F
  | [], stats => stats
  | e :: rest, stats => mergeStat port rest (mapSet stats (metricKey port e.1) e.2)

/-- The results of `FetchMetrics`, with the values the workers posted that it
had not received from the channel when it returned. -/
structure FetchResult (F : Type) where
  stats : Option (GoMap F)
  err : Option GoError
  pending : List (Metrics4Channel F)

/-- The receive loop of `FetchMetrics` over the values still to arrive. -/
def fetchLoop {F : Type} : List (Metrics4Channel F) → GoMap F → FetchResult F
  | [], stats => ⟨some stats, none, []⟩
  | stat :: rest, stats =>
    match stat.Err with
    | some e => ⟨none, some e, rest⟩
    | none =>
      match stat.Stat with
      | none => fetchLoop rest stats
      | some s => fetchLoop rest (mergeStat stat.Port s stats)

/-- The method `FetchMetrics`, given the values its workers post in the order
in which the channel delivers them: one per configured port, so that
`cap(channel)` is the length of `arrivals`. -/
def FetchMetrics {F : Type} (arrivals : List (Metrics4Channel F)) : FetchResult F :=
  fetchLoop arrivals []

/-- The number of receives `FetchMetrics` performs. -/
def receives {F : Type} (arrivals : List (Metrics4Channel F)) : Nat :=
  arrivals.length - (FetchMetrics arrivals).pending.length

/-! ## A small runtime for evaluation

Values are natural numbers and `ParseFloat` reads unsigned decimal integers
only, which Go reads to the same whole number. -/

/-- The value of a string of decimal digits, `none` when another character
occurs or the string is empty. -/
def readDigits : GoString → Option Nat
  | [] => none
  | cs =>
    cs.foldl (fun acc c =>
      match acc with
      | none => none
      | some n => if c.isDigit then some (10 * n + (c.toNat - 48)) else none) (some 0)

/-- A runtime over the natural numbers. -/
def natRuntime : Runtime Nat where
  zero := 0
  addOne := fun c => c + 1
  ParseFloat := fun s =>
    match readDigits s with
    | some n => (n, none)
    | none => (0, some ⟨"ParseFloat".toList, s, "invalid syntax".toList⟩)
  Quote := fun s => '"' :: s ++ ['"']

/-! ## The graph definitions -/

/-- The struct `mp.Metrics`, with the fields the table sets. -/
structure Metrics where
  Name : GoString
  Label : GoString
  Diff : Bool
  Stacked : Bool
  Typ : GoString
deriving DecidableEq

/-- The struct `mp.Graphs`, with the fields the table sets. -/
structure Graphs where
  Label : GoString
  Unit : GoString
  Metrics : List Metrics
deriving DecidableEq

/-- The table `graphdef`. -/
def graphdef : GoMap Graphs :=
  [ ("apache2.*.Workers".toList,
      ⟨"Apache Workers".toList, "integer".toList,
        [ ⟨"busy_workers".toList, "Busy Workers".toList, false, true, []⟩,
          ⟨"idle_workers".toList, "Idle Workers".toList, false, true, []⟩ ]⟩),
    ("apache2.*.Bytes".toList,
      ⟨"Apache Bytes".toList, "bytes".toList,
        [ ⟨"bytes_sent".toList, "Bytes Sent".toList, true, false, "uint64".toList⟩ ]⟩),
    ("apache2.*.Cpu".toList,
      ⟨"Apache CPU Load".toList, "float".toList,
        [ ⟨"cpu_load".toList, "CPU Load".toList, false, false, []⟩ ]⟩),
    ("apache2.*.Req".toList,
      ⟨"Apache Requests".toList, "integer".toList,
        [ ⟨"requests".toList, "Requests".toList, true, false, "uint64".toList⟩ ]⟩),
    ("apache2.*.Scoreboard".toList,
      ⟨"Apache Scoreboard".toList, "integer".toList,
        [ ⟨"score-_".toList, "Waiting for connection".toList, false, true, []⟩,
          ⟨"score-S".toList, "Starting up".toList, false, true, []⟩,
          ⟨"score-R".toList, "Reading request".toList, false, true, []⟩,
          ⟨"scpre-W".toList, "Sending reply".toList, false, true, []⟩,
          ⟨"score-K".toList, "Keepalive".toList, false, true, []⟩,
          ⟨"score-D".toList, "DNS lookup".toList, false, true, []⟩,
          ⟨"score-C".toList, "Closing connection".toList, false, true, []⟩,
          ⟨"score-L".toList, "Logging".toList, false, true, []⟩,
          ⟨"score-G".toList, "Gracefully finishing".toList, false, true, []⟩,
          ⟨"score-I".toList, "Idle cleanup".toList, false, true, []⟩,
          ⟨"score-.".toList, "Open slot".toList, false, true, []⟩ ]⟩) ]

/-- The method `GraphDefinition`. -/
def GraphDefinition : GoMap Graphs :=
  graphdef

/-! ## The endpoint fetcher -/

/-- The function `unicode.IsSpace`: the characters with the Unicode property
White_Space. -/
def isSpace (c : Char) : Bool :=
  c = '\t' || c = '\n' || c.toNat = 0x0B || c.toNat = 0x0C || c = '\r' || c = ' ' ||
  c.toNat = 0x85 || c.toNat = 0xA0 || c.toNat = 0x1680 ||
  (0x2000 ≤ c.toNat && c.toNat ≤ 0x200A) ||
  c.toNat = 0x2028 || c.toNat = 0x2029 || c.toNat = 0x202F || c.toNat = 0x205F ||
  c.toNat = 0x3000

namespace strings

/-- The call `strings.SplitN(s, sep, 2)` for a separator of one character:
`s` cut at its first `sep`, or `s` alone when it has none. -/
def SplitN2 (s : GoString) (sep : Char) : List GoString :=
  if sep ∈ s then
    [s.takeWhile (fun c => !decide (c = sep)),
     (s.dropWhile (fun c => !decide (c = sep))).drop 1]
  else [s]

/-- The function `strings.TrimSpace`. -/
def TrimSpace (s : GoString) : GoString :=
  ((s.dropWhile isSpace).reverse.dropWhile isSpace).reverse

end strings

/-- The bytes `validHeaderFieldByte` of `net/textproto` accepts: the token
characters of RFC 7230. -/
def validHeaderFieldByte (c : Char) : Bool :=
  c.isAlphanum || "!#$%&'*+-.^_`|~".toList.contains c

/-- The case `canonicalMIMEHeaderKey` gives a byte: upper case for a letter
where `upper` holds, lower case for a letter elsewhere. -/
def canonChar (upper : Bool) (c : Char) : Char :=
  if upper && c.isLower then c.toUpper
  else if !upper && c.isUpper then c.toLower
  else c

/-- The canonical form of a header key all of whose bytes are valid: upper
case for the first letter and for a letter after a hyphen, lower case for the
other letters. -/
def canonicalMIMEHeaderKey : Bool → GoString → GoString
  | _, [] => []
  | upper, c :: cs =>
    canonChar upper c :: canonicalMIMEHeaderKey (canonChar upper c = '-') cs

/-- The function `http.CanonicalHeaderKey`: a key with a byte that is not
valid in a header field name is returned as it is. -/
def CanonicalHeaderKey (s : GoString) : GoString :=
  if s.all validHeaderFieldByte then canonicalMIMEHeaderKey true s else s

/-- The fields of `http.Request` that `getApache2Metrics` sets. -/
structure Request where
  URL : GoString
  Host : GoString
  Header : GoMap (List GoString)
deriving DecidableEq

/-- What `getApache2Metrics` reads of an `http.Response`: the status code
and the two results of `ioutil.ReadAll(resp.Body)`. -/
structure Response where
  StatusCode : Int
  Body : GoString × Option GoError

/-- The calls into `net/http`: `http.NewRequest("GET", uri, nil)` and
`http.DefaultClient.Do(req)`, each with its error (nil being `none`). -/
structure HTTP where
  NewRequest : GoString → Request × Option GoError
  Do : Request → Response × Option GoError

/-- The verb `strconv.FormatUint(uint64(port), 10)`. -/
def formatUint64 (port : Int) : GoString :=
  Nat.toDigits 10 (port % 2 ^ 64).toNat

/-- The body of the loop `for _, h := range header` of `getApache2Metrics`.
`kv[0]` always exists, `SplitN` returning at least one piece. -/
def applyHeader (req : Request) (h : GoString) : Request :=
  let kv := strings.SplitN2 h ':'
  let k := strings.TrimSpace (kv.headD [])
  let v := if kv.length = 2 then strings.TrimSpace (kv.getD 1 []) else []
  if CanonicalHeaderKey k = "Host".toList then
    { req with Host := v }
  else
    { req with Header := mapSet req.Header (CanonicalHeaderKey k) [v] }

/-- The function `getApache2Metrics`. -/
def getApache2Metrics (H : HTTP) (host : GoString) (port : Int) (path : GoString)
    (header : List GoString) : GoString × Option GoError :=
  let uri := "http://".toList ++ host ++ ":".toList ++ formatUint64 port ++ path
  match H.NewRequest uri with
  | (_, some err) => ([], some err)
  | (req0, none) =>
    let req := header.foldl applyHeader req0
    match H.Do req with
    | (_, some err) => ([], some err)
    | (resp, none) =>
      if resp.StatusCode ≠ 200 then
        ([], some (GoError.errorString
          ("HTTP status error: ".toList ++ formatInt resp.StatusCode)))
      else
        match resp.Body with
        | (_, some err) => ([], some err)
        | (body, none) => (body, none)

/-! ## Definitions used to state the properties -/

/-- The text of a line before its first colon, the whole line when it has
no colon. -/
def leftSide (line : GoString) : GoString :=
  line.takeWhile (fun c => !decide (c = ':'))

/-- The text of a line after its first colon, empty when it has no colon. -/
def rightSide (line : GoString) : GoString :=
  (line.dropWhile (fun c => !decide (c = ':'))).drop 1

/-- The lines of a document. -/
def linesOf (doc : GoString) : List GoString :=
  strings.Split doc '\n'

/-- The read of a key in the union of two metric sets, the first having
precedence. -/
def unionGet {V : Type} (s b : GoMap V) (k : GoString) : Option V :=
  match mapGet s k with
  | some v => some v
  | none => mapGet b k

/-- A metric name `Category.Name` is registered in `graphdef`: the entry
`apache2.*.<Category>` has a metric named `Name`. The category is the text
before the first dot of the metric name. -/
def registered (metric : GoString) : Bool :=
  match mapGet graphdef
      ("apache2.*.".toList ++ metric.takeWhile (fun c => !decide (c = '.'))) with
  | none => false
  | some g =>
    g.Metrics.any (fun m =>
      decide (m.Name = (metric.dropWhile (fun c => !decide (c = '.'))).drop 1))

/-- The five metric names of the status parser. -/
def statusNames : List GoString :=
  Params.map Prod.snd

/-- The eleven symbols of a standard scoreboard. -/
def standardSymbols : List Char :=
  ['_', 'S', 'R', 'W', 'K', 'D', 'C', 'L', 'G', 'I', '.']

/-- The text of a line that the parsers trim and read: `record[1]`, the text
between the first and the second colon (all the text after the first colon
when there is no second). -/
def secondPiece (line : GoString) : GoString :=
  leftSide (rightSide line)

/-- The values the workers of a poll cycle post: one worker per configured
port, each given what its call of `getApache2Metrics` returns. -/
def postedBy {F : Type} (R : Runtime F) (workers : List (Int × (GoString × Option GoError))) :
    List (Metrics4Channel F) :=
  workers.map (fun w => (fetchMetrics4Port R w.1 w.2).posted)

/-- The scoreboard line of a document: the first line that contains
`Scoreboard`. -/
def IsScoreboardLine (doc line : GoString) : Prop :=
  ∃ pre post, linesOf doc = pre ++ line :: post ∧
    (∀ l ∈ pre, ¬ "Scoreboard".toList <:+: l) ∧ "Scoreboard".toList <:+: line

/-- The recognized status keys of a document: the left sides of its lines
that are keys of the table `Params`, in line order. -/
def recognizedKeys (doc : GoString) : List GoString :=
  ((linesOf doc).map leftSide).filter (fun k => (mapGet Params k).isSome)

/-- The characters the scoreboard parser counts on a document: the trimmed
second piece of its scoreboard line, none when no line contains
`Scoreboard`. -/
def countedText (doc : GoString) : GoString :=
  match (linesOf doc).find? matchScoreboard with
  | none => []
  | some line => strings.Trim (secondPiece line) ' '

/-- A whitespace character other than the space U+0020. -/
def isOtherSpace (c : Char) : Bool :=
  isSpace c && !decide (c = ' ')

/-- A string equals `Host` ignoring the case of ASCII letters. -/
abbrev equalsHostIgnoringCase (k : GoString) : Prop :=
  k.map Char.toLower = "host".toList

/-- An HTTP collaborator for evaluation: every request is built with an
empty `Host` and no header, and is answered with the given status code and
body. -/
def constHTTP (code : Int) (body : GoString) : HTTP where
  NewRequest := fun uri => (⟨uri, [], []⟩, none)
  Do := fun _ => (⟨code, (body, none)⟩, none)

/-- The value of a header string: the text after its first colon, trimmed
of surrounding whitespace, empty when the string has no colon. -/
def headerValue (h : GoString) : GoString :=
  if ':' ∈ h then strings.TrimSpace (rightSide h) else []

/-- The key of a header string: the text before its first colon, trimmed of
surrounding whitespace. -/
def headerKey (h : GoString) : GoString :=
  strings.TrimSpace (leftSide h)

/-- The URL `getApache2Metrics` requests. -/
def statusURL (host : GoString) (port : Int) (path : GoString) : GoString :=
  "http://".toList ++ host ++ ":".toList ++ formatUint64 port ++ path

/-- One step of `readDigits`. -/
def readStep (acc : Option Nat) (c : Char) : Option Nat :=
  match acc with
  | none => none
  | some n => if c.isDigit then some (10 * n + (c.toNat - 48)) else none

/-- The number a string of decimal digits denotes. -/
def digitsVal (cs : GoString) : Nat :=
  cs.foldl (fun a c => 10 * a + (c.toNat - 48)) 0

/-- The assignments `stats[k] = v` made one after the other. -/
def assignAll {V : Type} (upd : List (GoString × V)) (stats : GoMap V) : GoMap V :=
  upd.foldl (fun st e => mapSet st e.1 e.2) stats

/-- The assignments `FetchMetrics` makes for one received result. -/
def updatesOf {F : Type} (r : Metrics4Channel F) : List (GoString × F) :=
  (r.Stat.getD []).map (fun e => (metricKey r.Port e.1, e.2))

/-! ## Maps -/

section Maps

variable {V : Type}

theorem mapGet_filter_ne (m : GoMap V) (k k1 : GoString) (h : k ≠ k1) :
    mapGet (m.filter (fun e => !decide (e.1 = k))) k1 = mapGet m k1 := by
  induction m with
  | nil => rfl
  | cons e rest ih =>
    by_cases he : e.1 = k
    · have h1 : e.1 ≠ k1 := by rw [he]; exact h
      rw [List.filter_cons_of_neg (by simp [he]), ih]
      simp [mapGet, h1]
    · rw [List.filter_cons_of_pos (by simp [he])]
      by_cases h1 : e.1 = k1
      · simp [mapGet, h1]
      · simp [mapGet, h1, ih]

theorem mapGet_filter_self (m : GoMap V) (k : GoString) :
    mapGet (m.filter (fun e => !decide (e.1 = k))) k = none := by
  induction m with
  | nil => rfl
  | cons e rest ih =>
    by_cases he : e.1 = k
    · rw [List.filter_cons_of_neg (by simp [he]), ih]
    · rw [List.filter_cons_of_pos (by simp [he])]
      simp [mapGet, he, ih]

theorem mapGet_mapSet (m : GoMap V) (k k1 : GoString) (v : V) :
    mapGet (mapSet m k v) k1 = if k = k1 then some v else mapGet m k1 := by
  by_cases h : k = k1
  · simp [mapSet, mapGet, h]
  · simp [mapSet, mapGet, h, mapGet_filter_ne m k k1 h]

theorem mapGet_mapSet_self (m : GoMap V) (k : GoString) (v : V) :
    mapGet (mapSet m k v) k = some v := by
  simp [mapGet_mapSet]

theorem mapGet_mapSet_ne (m : GoMap V) (k k1 : GoString) (v : V) (h : k ≠ k1) :
    mapGet (mapSet m k v) k1 = mapGet m k1 := by
  simp [mapGet_mapSet, h]

theorem mapWF_nil : mapWF ([] : GoMap V) := by
  simp [mapWF]

theorem mapWF_mapSet (m : GoMap V) (k : GoString) (v : V) (h : mapWF m) :
    mapWF (mapSet m k v) := by
  unfold mapWF at *
  simp only [mapSet, List.map_cons, List.nodup_cons]
  constructor
  · intro hk
    obtain ⟨e, he, hek⟩ := List.mem_map.1 hk
    have := (List.mem_filter.1 he).2
    simp at this
    exact this hek
  · exact (h.sublist ((List.filter_sublist _).map _))

theorem mapGet_eq_none_iff (m : GoMap V) (k : GoString) :
    mapGet m k = none ↔ ∀ e ∈ m, e.1 ≠ k := by
  induction m with
  | nil => simp [mapGet]
  | cons e rest ih =>
    rw [List.forall_mem_cons]
    by_cases he : e.1 = k
    · simp only [mapGet, he, if_true]
      constructor
      · intro h
        cases h
      · intro h
        exact absurd rfl h.1
    · simp only [mapGet, he, if_false, ih]
      constructor
      · intro h
        exact ⟨he, h⟩
      · intro h
        exact h.2

theorem mapGet_eq_some_iff (m : GoMap V) (h : mapWF m) (k : GoString) (v : V) :
    mapGet m k = some v ↔ (k, v) ∈ m := by
  induction m with
  | nil => simp [mapGet]
  | cons e rest ih =>
    have hwf : mapWF rest := by
      unfold mapWF at *
      exact (List.nodup_cons.1 h).2
    have hnot : e.1 ∉ rest.map Prod.fst := by
      unfold mapWF at h
      exact (List.nodup_cons.1 h).1
    by_cases he : e.1 = k
    · simp only [mapGet, he, if_true, List.mem_cons]
      constructor
      · intro hv
        left
        obtain ⟨e1, e2⟩ := e
        simp only [Option.some.injEq] at hv
        simp only at he
        rw [hv, he]
      · rintro (h1 | h1)
        · rw [← h1]
        · exfalso
          apply hnot
          rw [he]
          exact List.mem_map.2 ⟨(k, v), h1, rfl⟩
    · simp only [mapGet, he, if_false, List.mem_cons, ih hwf]
      constructor
      · intro h1
        exact Or.inr h1
      · rintro (h1 | h1)
        · exfalso
          apply he
          rw [← h1]
        · exact h1

theorem mapLen_eq_zero_iff (m : GoMap V) : mapLen m = 0 ↔ m = [] := by
  simp [mapLen]

theorem assignAll_append (a b : List (GoString × V)) (stats : GoMap V) :
    assignAll (a ++ b) stats = assignAll b (assignAll a stats) := by
  simp [assignAll, List.foldl_append]

theorem mapWF_assignAll (upd : List (GoString × V)) (stats : GoMap V) (h : mapWF stats) :
    mapWF (assignAll upd stats) := by
  induction upd generalizing stats with
  | nil => exact h
  | cons e rest ih => exact ih _ (mapWF_mapSet stats e.1 e.2 h)

/-- After assignments to pairwise distinct keys, a key reads the value
assigned to it, and an unassigned key keeps its value. -/
theorem mapGet_assignAll (upd : List (GoString × V)) (hupd : mapWF upd) (stats : GoMap V)
    (k : GoString) :
    mapGet (assignAll upd stats) k =
      match mapGet upd k with
      | some v => some v
      | none => mapGet stats k := by
  induction upd generalizing stats with
  | nil => rfl
  | cons e rest ih =>
    have hwf : mapWF rest := by
      unfold mapWF at *
      exact (List.nodup_cons.1 hupd).2
    have hnot : e.1 ∉ rest.map Prod.fst := by
      unfold mapWF at hupd
      exact (List.nodup_cons.1 hupd).1
    have hstep : assignAll (e :: rest) stats = assignAll rest (mapSet stats e.1 e.2) := rfl
    rw [hstep, ih hwf]
    by_cases he : e.1 = k
    · have hnone : mapGet rest k = none := by
        rw [mapGet_eq_none_iff]
        intro x hx hxk
        apply hnot
        rw [he, ← hxk]
        exact List.mem_map.2 ⟨x, hx, rfl⟩
      simp [hnone, mapGet, he, mapGet_mapSet]
    · rw [mapGet_mapSet_ne stats e.1 k e.2 he]
      simp only [mapGet, he, if_false]

end Maps

/-! ## Decimal numerals and metric keys -/

theorem toDigitsCore_append (fuel n : Nat) (ds : List Char) :
    Nat.toDigitsCore 10 fuel n ds = Nat.toDigitsCore 10 fuel n [] ++ ds := by
  induction fuel generalizing n ds with
  | zero => simp [Nat.toDigitsCore]
  | succ f ih =>
    simp only [Nat.toDigitsCore]
    split
    · simp
    · rw [ih (n / 10) (Nat.digitChar (n % 10) :: ds), ih (n / 10) [Nat.digitChar (n % 10)]]
      simp

theorem digitChar_val (m : Nat) (h : m < 10) : (Nat.digitChar m).toNat - 48 = m := by
  interval_cases m <;> rfl

theorem digitChar_isDigit (m : Nat) (h : m < 10) : (Nat.digitChar m).isDigit = true := by
  interval_cases m <;> rfl

theorem digitsVal_append_singleton (cs : GoString) (c : Char) :
    digitsVal (cs ++ [c]) = 10 * digitsVal cs + (c.toNat - 48) := by
  simp [digitsVal, List.foldl_append]

theorem digitsVal_toDigitsCore (fuel n : Nat) (h : n < fuel) :
    digitsVal (Nat.toDigitsCore 10 fuel n []) = n := by
  induction fuel generalizing n with
  | zero => omega
  | succ f ih =>
    simp only [Nat.toDigitsCore]
    split
    · rename_i h0
      have hlt : n < 10 := by omega
      have hmod : n % 10 = n := Nat.mod_eq_of_lt hlt
      simp [digitsVal, hmod, digitChar_val n hlt]
    · rename_i h0
      rw [toDigitsCore_append, digitsVal_append_singleton, ih (n / 10) (by omega),
        digitChar_val (n % 10) (Nat.mod_lt _ (by decide))]
      omega

theorem toDigitsCore_isDigit (fuel n : Nat) :
    ∀ c ∈ Nat.toDigitsCore 10 fuel n [], c.isDigit = true := by
  induction fuel generalizing n with
  | zero => simp [Nat.toDigitsCore]
  | succ f ih =>
    simp only [Nat.toDigitsCore]
    split
    · intro c hc
      simp at hc
      rw [hc]
      exact digitChar_isDigit _ (Nat.mod_lt _ (by decide))
    · rw [toDigitsCore_append]
      intro c hc
      rcases List.mem_append.1 hc with h1 | h1
      · exact ih _ c h1
      · simp at h1
        rw [h1]
        exact digitChar_isDigit _ (Nat.mod_lt _ (by decide))

theorem toDigits_injective (a b : Nat) (h : Nat.toDigits 10 a = Nat.toDigits 10 b) : a = b := by
  have ha := digitsVal_toDigitsCore (a + 1) a (by omega)
  have hb := digitsVal_toDigitsCore (b + 1) b (by omega)
  unfold Nat.toDigits at h
  rw [h] at ha
  omega

theorem formatInt_injective (a b : Int) (h : formatInt a = formatInt b) : a = b := by
  cases a with
  | ofNat x =>
    cases b with
    | ofNat y =>
      simp only [formatInt] at h
      rw [toDigits_injective x y h]
    | negSucc y =>
      simp only [formatInt] at h
      have := toDigitsCore_isDigit (x + 1) x '-' (by
        show '-' ∈ Nat.toDigits 10 x
        rw [h]; simp)
      exact absurd this (by decide)
  | negSucc x =>
    cases b with
    | ofNat y =>
      simp only [formatInt] at h
      have := toDigitsCore_isDigit (y + 1) y '-' (by
        show '-' ∈ Nat.toDigits 10 y
        rw [← h]; simp)
      exact absurd this (by decide)
    | negSucc y =>
      simp only [formatInt, List.cons.injEq, true_and] at h
      have := toDigits_injective _ _ h
      have hxy : x = y := by omega
      rw [hxy]

theorem dot_not_mem_formatInt (a : Int) : '.' ∉ formatInt a := by
  cases a with
  | ofNat x =>
    intro h
    have := toDigitsCore_isDigit (x + 1) x '.' h
    exact absurd this (by decide)
  | negSucc x =>
    intro h
    simp only [formatInt, List.mem_cons] at h
    rcases h with h | h
    · exact absurd h (by decide)
    · have := toDigitsCore_isDigit (x + 1 + 1) (x + 1) '.' h
      exact absurd this (by decide)

/-- The key construction `(port, name) ↦ apache2.<port>.<name>` is injective. -/
theorem metricKey_injective (p q : Int) (n m : GoString)
    (h : metricKey p n = metricKey q m) : p = q ∧ n = m := by
  unfold metricKey at h
  simp only [List.append_assoc, List.append_cancel_left_eq] at h
  have h1 : formatInt p ++ '.' :: n = formatInt q ++ '.' :: m := h
  have hq : '.' ∉ formatInt q := dot_not_mem_formatInt q
  have hp : '.' ∉ formatInt p := dot_not_mem_formatInt p
  have key : ∀ (l1 l2 r1 r2 : List Char), '.' ∉ l1 → '.' ∉ l2 →
      l1 ++ '.' :: r1 = l2 ++ '.' :: r2 → l1 = l2 ∧ r1 = r2 := by
    intro l1
    induction l1 with
    | nil =>
      intro l2 r1 r2 _ h2 heq
      cases l2 with
      | nil => simpa using heq
      | cons c cs =>
        simp only [List.nil_append, List.cons_append, List.cons.injEq] at heq
        exact absurd (by simp [← heq.1]) h2
    | cons a as ih =>
      intro l2 r1 r2 h1 h2 heq
      cases l2 with
      | nil =>
        simp only [List.nil_append, List.cons_append, List.cons.injEq] at heq
        exact absurd (by simp [heq.1]) h1
      | cons c cs =>
        simp only [List.cons_append, List.cons.injEq] at heq
        have := ih cs r1 r2 (fun hm => h1 (List.mem_cons_of_mem _ hm))
          (fun hm => h2 (List.mem_cons_of_mem _ hm)) heq.2
        exact ⟨by rw [heq.1, this.1], this.2⟩
  have h2 := key _ _ _ _ hp hq h1
  exact ⟨formatInt_injective p q h2.1, h2.2⟩

/-! ## Splitting -/

theorem Split_eq (s : GoString) (sep : Char) :
    strings.Split s sep =
      s.takeWhile (fun c => !decide (c = sep)) ::
        (match s.dropWhile (fun c => !decide (c = sep)) with
         | [] => []
         | _ :: r => strings.Split r sep) := by
  induction s with
  | nil => rfl
  | cons c cs ih =>
    by_cases h : c = sep
    · simp [strings.Split, h, List.takeWhile, List.dropWhile]
    · rw [strings.Split, if_neg h, ih]
      simp [List.takeWhile, List.dropWhile, h]

theorem Split_get_zero (s : GoString) (sep : Char) :
    (strings.Split s sep)[0]? = some (s.takeWhile (fun c => !decide (c = sep))) := by
  rw [Split_eq]
  simp

theorem dropWhile_ne_eq_nil (s : GoString) (sep : Char) (h : sep ∉ s) :
    s.dropWhile (fun c => !decide (c = sep)) = [] := by
  induction s with
  | nil => rfl
  | cons c cs ih =>
    have hc : c ≠ sep := fun hc => h (by simp [hc])
    have hcs : sep ∉ cs := fun hm => h (List.mem_cons_of_mem _ hm)
    simp [List.dropWhile, hc, ih hcs]

theorem takeWhile_ne_eq_self (s : GoString) (sep : Char) (h : sep ∉ s) :
    s.takeWhile (fun c => !decide (c = sep)) = s := by
  induction s with
  | nil => rfl
  | cons c cs ih =>
    have hc : c ≠ sep := fun hc => h (by simp [hc])
    have hcs : sep ∉ cs := fun hm => h (List.mem_cons_of_mem _ hm)
    simp [List.takeWhile, hc, ih hcs]

theorem dropWhile_ne_of_mem (s : GoString) (sep : Char) (h : sep ∈ s) :
    s.dropWhile (fun c => !decide (c = sep))
      = sep :: (s.dropWhile (fun c => !decide (c = sep))).drop 1 := by
  induction s with
  | nil => cases h
  | cons c cs ih =>
    by_cases hc : c = sep
    · simp [List.dropWhile, hc]
    · have hcs : sep ∈ cs := by
        rcases List.mem_cons.1 h with h1 | h1
        · exact absurd h1.symm hc
        · exact h1
      have e : (c :: cs).dropWhile (fun c => !decide (c = sep))
          = cs.dropWhile (fun c => !decide (c = sep)) := by
        simp [List.dropWhile, hc]
      rw [e]
      exact ih hcs

theorem Split_of_not_mem (s : GoString) (sep : Char) (h : sep ∉ s) :
    strings.Split s sep = [s] := by
  rw [Split_eq, dropWhile_ne_eq_nil s sep h, takeWhile_ne_eq_self s sep h]

/-- The element `record[1]` of a line split on colons is out of range when
the line has no colon. -/
theorem Split_get_one_of_not_mem (line : GoString) (h : ':' ∉ line) :
    (strings.Split line ':')[1]? = none := by
  rw [Split_of_not_mem line ':' h]
  rfl

/-- The element `record[1]` of a line split on colons is the text between
its first and its second colon. -/
theorem Split_get_one_of_mem (line : GoString) (h : ':' ∈ line) :
    (strings.Split line ':')[1]? = some (leftSide (rightSide line)) := by
  rw [Split_eq, dropWhile_ne_of_mem line ':' h]
  simp only [List.getElem?_cons_succ]
  rw [Split_get_zero]
  rfl

theorem colon_mem_of_count (line : GoString) (h : line.count ':' = 1) : ':' ∈ line := by
  apply List.count_pos_iff.1
  omega

theorem count_split_at_colon (line : GoString) (h : ':' ∈ line) :
    line.count ':' = 1 + (rightSide line).count ':' := by
  have h1 : line = line.takeWhile (fun c => !decide (c = ':'))
      ++ line.dropWhile (fun c => !decide (c = ':')) := (List.takeWhile_append_dropWhile _ _).symm
  have h2 : (line.takeWhile (fun c => !decide (c = ':'))).count ':' = 0 := by
    apply List.count_eq_zero.2
    intro hm
    have := List.mem_takeWhile_imp hm
    simp at this
  conv_lhs => rw [h1]
  rw [List.count_append, h2, dropWhile_ne_of_mem line ':' h, List.count_cons_self]
  unfold rightSide
  omega

/-- In a line with exactly one colon, `record[1]` is all the text after it. -/
theorem Split_get_one_of_count (line : GoString) (h : line.count ':' = 1) :
    (strings.Split line ':')[1]? = some (rightSide line) := by
  have hm := colon_mem_of_count line h
  rw [Split_get_one_of_mem line hm]
  have hc := count_split_at_colon line hm
  have h0 : ':' ∉ rightSide line := by
    intro hin
    have := List.count_pos_iff.2 hin
    omega
  unfold leftSide
  rw [takeWhile_ne_eq_self _ ':' h0]

/-! ## The status parser -/

section Status

variable {F : Type} (R : Runtime F)

/-- A line whose left side is not a recognized key is skipped. -/
theorem statusLoop_skip (line : GoString) (rest : List GoString) (p : GoMap F)
    (h : mapGet Params (leftSide line) = none) :
    statusLoop R (line :: rest) p = statusLoop R rest p := by
  unfold leftSide at h
  rw [statusLoop]
  simp only [Split_get_zero, h]

/-- A recognized line without a colon panics: `record[1]` is out of range. -/
theorem statusLoop_panic (line : GoString) (rest : List GoString) (p : GoMap F)
    (name : GoString) (h : mapGet Params (leftSide line) = some name) (hc : ':' ∉ line) :
    statusLoop R (line :: rest) p = Exec.panic := by
  unfold leftSide at h
  rw [statusLoop]
  simp only [Split_get_zero, h, Split_get_one_of_not_mem line hc]

/-- A recognized line with a colon: the value read from `record[1]` is stored,
and a parse error is returned at once. -/
theorem statusLoop_step (line : GoString) (rest : List GoString) (p : GoMap F)
    (name : GoString) (h : mapGet Params (leftSide line) = some name) (hc : ':' ∈ line) :
    statusLoop R (line :: rest) p =
      match (R.ParseFloat (strings.Trim (leftSide (rightSide line)) ' ')).2 with
      | some errParse =>
        Exec.ret (mapSet p name
          (R.ParseFloat (strings.Trim (leftSide (rightSide line)) ' ')).1,
          some (GoError.numError errParse))
      | none =>
        statusLoop R rest (mapSet p name
          (R.ParseFloat (strings.Trim (leftSide (rightSide line)) ' ')).1) := by
  unfold leftSide at h
  rw [statusLoop]
  simp only [Split_get_zero, h, Split_get_one_of_mem line hc]

theorem mapSet_ne_nil (p : GoMap F) (k : GoString) (v : F) : mapSet p k v ≠ [] := by
  simp [mapSet]

/-- A line is either unrecognized, or recognized without a colon, or
recognized with a colon. -/
theorem line_cases (line : GoString) :
    mapGet Params (leftSide line) = none ∨
    (∃ name, mapGet Params (leftSide line) = some name ∧ ':' ∉ line) ∨
    (∃ name, mapGet Params (leftSide line) = some name ∧ ':' ∈ line) := by
  cases h : mapGet Params (leftSide line) with
  | none => exact Or.inl rfl
  | some name =>
    by_cases hc : ':' ∈ line
    · exact Or.inr (Or.inr ⟨name, rfl, hc⟩)
    · exact Or.inr (Or.inl ⟨name, rfl, hc⟩)

/-- When no line is recognized the loop runs to its end and leaves the metric
set as it was. -/
theorem statusLoop_of_no_key (lines : List GoString) (p : GoMap F)
    (h : ∀ line ∈ lines, mapGet Params (leftSide line) = none) :
    statusLoop R lines p = Exec.ret (p, none) := by
  induction lines with
  | nil => rfl
  | cons line rest ih =>
    rw [statusLoop_skip R line rest p (h line (List.mem_cons_self _ _))]
    exact ih (fun l hl => h l (List.mem_cons_of_mem _ hl))

/-- The loop never returns an error that is an `errorString`. -/
theorem statusLoop_error_is_numError (lines : List GoString) (p p1 : GoMap F) (e : GoError)
    (h : statusLoop R lines p = Exec.ret (p1, some e)) : ∃ ne, e = GoError.numError ne := by
  induction lines generalizing p with
  | nil => simp [statusLoop] at h
  | cons line rest ih =>
    rcases line_cases line with hn | ⟨name, hk, hc⟩ | ⟨name, hk, hc⟩
    · rw [statusLoop_skip R line rest p hn] at h
      exact ih p h
    · rw [statusLoop_panic R line rest p name hk hc] at h
      cases h
    · rw [statusLoop_step R line rest p name hk hc] at h
      cases hpf : (R.ParseFloat (strings.Trim (leftSide (rightSide line)) ' ')).2 with
      | some errParse =>
        rw [hpf] at h
        simp only [Exec.ret.injEq, Prod.mk.injEq, Option.some.injEq] at h
        exact ⟨errParse, h.2.symm⟩
      | none =>
        rw [hpf] at h
        exact ih _ h

/-- A loop that runs to its end keeps a non-empty metric set non-empty. -/
theorem statusLoop_ne_nil (lines : List GoString) (p p1 : GoMap F)
    (h : statusLoop R lines p = Exec.ret (p1, none)) (hp : p ≠ []) : p1 ≠ [] := by
  induction lines generalizing p with
  | nil =>
    simp only [statusLoop, Exec.ret.injEq, Prod.mk.injEq, and_true] at h
    rw [← h]
    exact hp
  | cons line rest ih =>
    rcases line_cases line with hn | ⟨name, hk, hc⟩ | ⟨name, hk, hc⟩
    · rw [statusLoop_skip R line rest p hn] at h
      exact ih p h hp
    · rw [statusLoop_panic R line rest p name hk hc] at h
      cases h
    · rw [statusLoop_step R line rest p name hk hc] at h
      cases hpf : (R.ParseFloat (strings.Trim (leftSide (rightSide line)) ' ')).2 with
      | some errParse =>
        rw [hpf] at h
        simp at h
      | none =>
        rw [hpf] at h
        exact ih _ h (mapSet_ne_nil _ _ _)

/-- A loop that runs to its end over a recognized line leaves a non-empty
metric set. -/
theorem statusLoop_ne_nil_of_key (lines : List GoString) (p p1 : GoMap F)
    (h : statusLoop R lines p = Exec.ret (p1, none))
    (hk : ∃ line ∈ lines, mapGet Params (leftSide line) ≠ none) : p1 ≠ [] := by
  induction lines generalizing p with
  | nil =>
    obtain ⟨l, hl, _⟩ := hk
    cases hl
  | cons line rest ih =>
    rcases line_cases line with hn | ⟨name, hkey, hc⟩ | ⟨name, hkey, hc⟩
    · rw [statusLoop_skip R line rest p hn] at h
      apply ih p h
      obtain ⟨l, hl, hne⟩ := hk
      rcases List.mem_cons.1 hl with rfl | hl1
      · exact absurd hn hne
      · exact ⟨l, hl1, hne⟩
    · rw [statusLoop_panic R line rest p name hkey hc] at h
      cases h
    · rw [statusLoop_step R line rest p name hkey hc] at h
      cases hpf : (R.ParseFloat (strings.Trim (leftSide (rightSide line)) ' ')).2 with
      | some errParse =>
        rw [hpf] at h
        simp at h
      | none =>
        rw [hpf] at h
        exact statusLoop_ne_nil R rest _ p1 h (mapSet_ne_nil _ _ _)

theorem leftSide_rightSide_of_count (line : GoString) (h : line.count ':' = 1) :
    leftSide (rightSide line) = rightSide line := by
  have hm := colon_mem_of_count line h
  have hc := count_split_at_colon line hm
  have h0 : ':' ∉ rightSide line := by
    intro hin
    have := List.count_pos_iff.2 hin
    omega
  unfold leftSide
  rw [takeWhile_ne_eq_self _ ':' h0]

/-- The loop over two runs of lines is the loop over the second run started
from what the first run leaves, unless the first run ends the call. -/
theorem statusLoop_append (a b : List GoString) (p : GoMap F) :
    statusLoop R (a ++ b) p =
      match statusLoop R a p with
      | Exec.ret (pm, none) => statusLoop R b pm
      | other => other := by
  induction a generalizing p with
  | nil => rfl
  | cons line rest ih =>
    rw [List.cons_append]
    rcases line_cases line with hn | ⟨name, hk, hc⟩ | ⟨name, hk, hc⟩
    · rw [statusLoop_skip R line _ p hn, statusLoop_skip R line _ p hn]
      exact ih p
    · rw [statusLoop_panic R line _ p name hk hc, statusLoop_panic R line _ p name hk hc]
    · rw [statusLoop_step R line _ p name hk hc, statusLoop_step R line _ p name hk hc]
      cases hpf : (R.ParseFloat (strings.Trim (leftSide (rightSide line)) ' ')).2 with
      | some errParse => rfl
      | none => exact ih _

theorem statusLoop_append_ok (a b : List GoString) (p p1 : GoMap F)
    (h : statusLoop R (a ++ b) p = Exec.ret (p1, none)) :
    ∃ pm, statusLoop R a p = Exec.ret (pm, none) ∧ statusLoop R b pm = Exec.ret (p1, none) := by
  rw [statusLoop_append] at h
  cases ha : statusLoop R a p with
  | panic =>
    rw [ha] at h
    cases h
  | ret x =>
    obtain ⟨pm, oe⟩ := x
    cases oe with
    | some e =>
      rw [ha] at h
      simp at h
    | none =>
      rw [ha] at h
      exact ⟨pm, rfl, h⟩

/-- A loop that runs to its end leaves unchanged every name that no line
assigns. -/
theorem statusLoop_frame (lines : List GoString) (p p1 : GoMap F) (k : GoString)
    (h : statusLoop R lines p = Exec.ret (p1, none))
    (hk : ∀ l ∈ lines, mapGet Params (leftSide l) ≠ some k) :
    mapGet p1 k = mapGet p k := by
  induction lines generalizing p with
  | nil =>
    simp only [statusLoop, Exec.ret.injEq, Prod.mk.injEq, and_true] at h
    rw [h]
  | cons line rest ih =>
    have hrest : ∀ l ∈ rest, mapGet Params (leftSide l) ≠ some k :=
      fun l hl => hk l (List.mem_cons_of_mem _ hl)
    rcases line_cases line with hn | ⟨name, hkey, hc⟩ | ⟨name, hkey, hc⟩
    · rw [statusLoop_skip R line rest p hn] at h
      exact ih p h hrest
    · rw [statusLoop_panic R line rest p name hkey hc] at h
      cases h
    · rw [statusLoop_step R line rest p name hkey hc] at h
      cases hpf : (R.ParseFloat (strings.Trim (leftSide (rightSide line)) ' ')).2 with
      | some errParse =>
        rw [hpf] at h
        simp at h
      | none =>
        rw [hpf] at h
        have hne : name ≠ k := by
          intro hnk
          apply hk line (List.mem_cons_self _ _)
          rw [hkey, hnk]
        rw [ih _ h hrest, mapGet_mapSet_ne _ _ _ _ hne]

/-- A loop that runs to its end leaves under a name the value read from the
last line that assigns it. -/
theorem statusLoop_last (pre post : List GoString) (line : GoString) (p p1 : GoMap F)
    (name : GoString)
    (h : statusLoop R (pre ++ line :: post) p = Exec.ret (p1, none))
    (hkey : mapGet Params (leftSide line) = some name) (hc : ':' ∈ line)
    (hpost : ∀ l ∈ post, mapGet Params (leftSide l) ≠ some name) :
    mapGet p1 name
      = some (R.ParseFloat (strings.Trim (leftSide (rightSide line)) ' ')).1 := by
  obtain ⟨pm, _, h2⟩ := statusLoop_append_ok R pre (line :: post) p p1 h
  rw [statusLoop_step R line post pm name hkey hc] at h2
  cases hpf : (R.ParseFloat (strings.Trim (leftSide (rightSide line)) ' ')).2 with
  | some errParse =>
    rw [hpf] at h2
    simp at h2
  | none =>
    rw [hpf] at h2
    rw [statusLoop_frame R post _ p1 name h2 hpost, mapGet_mapSet_self]

theorem statusLoop_mapWF (lines : List GoString) (p p1 : GoMap F) (oe : Option GoError)
    (h : statusLoop R lines p = Exec.ret (p1, oe)) (hp : mapWF p) : mapWF p1 := by
  induction lines generalizing p with
  | nil =>
    simp only [statusLoop, Exec.ret.injEq, Prod.mk.injEq] at h
    rw [← h.1]
    exact hp
  | cons line rest ih =>
    rcases line_cases line with hn | ⟨name, hkey, hc⟩ | ⟨name, hkey, hc⟩
    · rw [statusLoop_skip R line rest p hn] at h
      exact ih p h hp
    · rw [statusLoop_panic R line rest p name hkey hc] at h
      cases h
    · rw [statusLoop_step R line rest p name hkey hc] at h
      cases hpf : (R.ParseFloat (strings.Trim (leftSide (rightSide line)) ' ')).2 with
      | some errParse =>
        rw [hpf] at h
        simp only [Exec.ret.injEq, Prod.mk.injEq] at h
        rw [← h.1]
        exact mapWF_mapSet _ _ _ hp
      | none =>
        rw [hpf] at h
        exact ih _ h (mapWF_mapSet _ _ _ hp)

/-- A successful call of the parser is a loop that ran to its end. -/
theorem statusLoop_of_parse_ok (doc : GoString) (p p1 : GoMap F)
    (h : parseApache2Status R doc p = Exec.ret (p1, none)) :
    statusLoop R (linesOf doc) p = Exec.ret (p1, none) := by
  unfold parseApache2Status at h
  unfold linesOf
  cases hloop : statusLoop R (strings.Split doc '\n') p with
  | panic =>
    rw [hloop] at h
    cases h
  | ret x =>
    obtain ⟨q, oe⟩ := x
    rw [hloop] at h
    cases oe with
    | some e => simp at h
    | none =>
      by_cases hlen : mapLen q = 0
      · simp [hlen] at h
      · simp only [hlen, if_false, Exec.ret.injEq, Prod.mk.injEq, and_true] at h
        rw [h]

/-- A list with an element satisfying `P` splits at the last such element. -/
theorem exists_last_split {α : Type} (P : α → Prop) (l : List α) (h : ∃ x ∈ l, P x) :
    ∃ pre x post, l = pre ++ x :: post ∧ P x ∧ ∀ y ∈ post, ¬ P y := by
  induction l with
  | nil =>
    obtain ⟨x, hx, _⟩ := h
    cases hx
  | cons a l ih =>
    by_cases hl : ∃ x ∈ l, P x
    · obtain ⟨pre, x, post, hsplit, hx, hpost⟩ := ih hl
      exact ⟨a :: pre, x, post, by rw [hsplit, List.cons_append], hx, hpost⟩
    · obtain ⟨x, hx, hPx⟩ := h
      rcases List.mem_cons.1 hx with rfl | hx1
      · exact ⟨[], x, l, rfl, hPx, fun y hy hPy => hl ⟨y, hy, hPy⟩⟩
      · exact absurd ⟨x, hx1, hPx⟩ hl

/-- The five entries of the table `Params`. -/
theorem Params_cases (k name : GoString) (h : mapGet Params k = some name) :
    (k = "Total Accesses".toList ∧ name = "Req.requests".toList) ∨
    (k = "Total kBytes".toList ∧ name = "Bytes.bytes_sent".toList) ∨
    (k = "CPULoad".toList ∧ name = "Cpu.cpu_load".toList) ∨
    (k = "BusyWorkers".toList ∧ name = "Workers.busy_workers".toList) ∨
    (k = "IdleWorkers".toList ∧ name = "Workers.idle_workers".toList) := by
  simp only [Params, mapGet] at h
  split_ifs at h with h1 h2 h3 h4 h5
  · exact Or.inl ⟨h1.symm, (Option.some.inj h).symm⟩
  · exact Or.inr (Or.inl ⟨h2.symm, (Option.some.inj h).symm⟩)
  · exact Or.inr (Or.inr (Or.inl ⟨h3.symm, (Option.some.inj h).symm⟩))
  · exact Or.inr (Or.inr (Or.inr (Or.inl ⟨h4.symm, (Option.some.inj h).symm⟩)))
  · exact Or.inr (Or.inr (Or.inr (Or.inr ⟨h5.symm, (Option.some.inj h).symm⟩)))

/-- The table `Params` gives distinct names to distinct keys. -/
theorem Params_injective (k1 k2 name : GoString) (h1 : mapGet Params k1 = some name)
    (h2 : mapGet Params k2 = some name) : k1 = k2 := by
  rcases Params_cases k1 name h1 with ⟨a, b⟩ | ⟨a, b⟩ | ⟨a, b⟩ | ⟨a, b⟩ | ⟨a, b⟩ <;>
  rcases Params_cases k2 name h2 with ⟨c, d⟩ | ⟨c, d⟩ | ⟨c, d⟩ | ⟨c, d⟩ | ⟨c, d⟩ <;>
  first
  | (exfalso; rw [b] at d; revert d; decide)
  | (rw [a, c])

/-- C4: for a document in which every line has at most one colon and every
line whose left side is a recognized key has a colon, a call on the empty
metric set that returns no error leaves exactly one entry for each recognized
key that is the left side of some line, under the name `Params` gives it,
with the value `ParseFloat` reads from the trimmed right side of the last such
line, and no other entry. -/
theorem parseApache2Status_entries (doc : GoString) (p1 : GoMap F)
    (hone : ∀ line ∈ linesOf doc, line.count ':' ≤ 1)
    (hcolon : ∀ line ∈ linesOf doc, mapGet Params (leftSide line) ≠ none → ':' ∈ line)
    (hok : parseApache2Status R doc [] = Exec.ret (p1, none)) :
    mapWF p1 ∧
    ∀ name v, mapGet p1 name = some v ↔
      ∃ key, mapGet Params key = some name ∧
        ∃ pre line post, linesOf doc = pre ++ line :: post ∧ leftSide line = key ∧
          (∀ l ∈ post, leftSide l ≠ key) ∧
          v = (R.ParseFloat (strings.Trim (rightSide line) ' ')).1 := by
  have hloop := statusLoop_of_parse_ok R doc [] p1 hok
  refine ⟨statusLoop_mapWF R _ _ _ _ hloop mapWF_nil, ?_⟩
  have hval : ∀ pre line post name, linesOf doc = pre ++ line :: post →
      mapGet Params (leftSide line) = some name →
      (∀ l ∈ post, mapGet Params (leftSide l) ≠ some name) →
      mapGet p1 name = some (R.ParseFloat (strings.Trim (rightSide line) ' ')).1 := by
    intro pre line post name hsplit hkey hpost
    have hmem : line ∈ linesOf doc := by
      rw [hsplit]
      exact List.mem_append_right _ (List.mem_cons_self _ _)
    have hc : ':' ∈ line := hcolon line hmem (by rw [hkey]; simp)
    have hcount : line.count ':' = 1 := by
      have h1 := hone line hmem
      have h2 := List.count_pos_iff.2 hc
      omega
    rw [hsplit] at hloop
    rw [statusLoop_last R pre post line [] p1 name hloop hkey hc hpost,
      leftSide_rightSide_of_count line hcount]
  intro name v
  constructor
  · intro hget
    have hex : ∃ l ∈ linesOf doc, mapGet Params (leftSide l) = some name := by
      by_contra hno
      have hframe := statusLoop_frame R (linesOf doc) [] p1 name hloop
        (fun l hl hk => hno ⟨l, hl, hk⟩)
      rw [hget] at hframe
      cases hframe
    obtain ⟨pre, line, post, hsplit, hkey, hpost⟩ :=
      exists_last_split (fun l => mapGet Params (leftSide l) = some name) _ hex
    refine ⟨leftSide line, hkey, pre, line, post, hsplit, rfl, ?_, ?_⟩
    · intro l hl heq
      apply hpost l hl
      show mapGet Params (leftSide l) = some name
      rw [heq]
      exact hkey
    · have := hval pre line post name hsplit hkey hpost
      rw [hget] at this
      exact Option.some.inj this
  · rintro ⟨key, hkey, pre, line, post, hsplit, hleft, hpost, hv⟩
    rw [hv]
    apply hval pre line post name hsplit (by rw [hleft]; exact hkey)
    intro l hl hk
    exact hpost l hl (Params_injective _ _ name hk hkey)

/-- Witness of C4: the document `Total Accesses: 42\nBusyWorkers: 3\n` gives
exactly `Req.requests ↦ 42` and `Workers.busy_workers ↦ 3`. -/
theorem parseApache2Status_entries_witness :
    parseApache2Status natRuntime "Total Accesses: 42\nBusyWorkers: 3\n".toList []
      = Exec.ret ([("Workers.busy_workers".toList, 3), ("Req.requests".toList, 42)], none) ∧
    (mapWF [("Workers.busy_workers".toList, 3), ("Req.requests".toList, 42)] ∧
    ∀ name v,
      mapGet [("Workers.busy_workers".toList, 3), ("Req.requests".toList, 42)] name = some v ↔
      ∃ key, mapGet Params key = some name ∧
        ∃ pre line post,
          linesOf "Total Accesses: 42\nBusyWorkers: 3\n".toList = pre ++ line :: post ∧
          leftSide line = key ∧ (∀ l ∈ post, leftSide l ≠ key) ∧
          v = (natRuntime.ParseFloat (strings.Trim (rightSide line) ' ')).1) :=
  ⟨by decide,
   parseApache2Status_entries natRuntime "Total Accesses: 42\nBusyWorkers: 3\n".toList
    [("Workers.busy_workers".toList, 3), ("Req.requests".toList, 42)]
    (by decide) (by decide) (by decide)⟩

/-- The loop returns the error of `ParseFloat` when a recognized line, all of
whose recognized lines have exactly one colon, has an invalid right side. -/
theorem statusLoop_numError (lines : List GoString) (p : GoMap F)
    (hcolon : ∀ line ∈ lines, mapGet Params (leftSide line) ≠ none → line.count ':' = 1)
    (hbad : ∃ line ∈ lines, mapGet Params (leftSide line) ≠ none ∧
      (R.ParseFloat (strings.Trim (rightSide line) ' ')).2 ≠ none) :
    ∃ p1 ne, statusLoop R lines p = Exec.ret (p1, some (GoError.numError ne)) ∧
      ∃ line ∈ lines, mapGet Params (leftSide line) ≠ none ∧
        (R.ParseFloat (strings.Trim (rightSide line) ' ')).2 = some ne := by
  induction lines generalizing p with
  | nil =>
    obtain ⟨l, hl, _⟩ := hbad
    cases hl
  | cons line rest ih =>
    have hrest : ∀ l ∈ rest, mapGet Params (leftSide l) ≠ none → l.count ':' = 1 :=
      fun l hl => hcolon l (List.mem_cons_of_mem _ hl)
    have lift : ∀ q, (∃ l ∈ rest, mapGet Params (leftSide l) ≠ none ∧
          (R.ParseFloat (strings.Trim (rightSide l) ' ')).2 ≠ none) →
        ∃ p1 ne, statusLoop R rest q = Exec.ret (p1, some (GoError.numError ne)) ∧
          ∃ l ∈ line :: rest, mapGet Params (leftSide l) ≠ none ∧
            (R.ParseFloat (strings.Trim (rightSide l) ' ')).2 = some ne := by
      intro q hb
      obtain ⟨p1, ne, h1, l, hl, h2⟩ := ih q hrest hb
      exact ⟨p1, ne, h1, l, List.mem_cons_of_mem _ hl, h2⟩
    rcases line_cases line with hn | ⟨name, hkey, hc⟩ | ⟨name, hkey, hc⟩
    · rw [statusLoop_skip R line rest p hn]
      apply lift
      obtain ⟨l, hl, hne, hb⟩ := hbad
      rcases List.mem_cons.1 hl with rfl | hl1
      · exact absurd hn hne
      · exact ⟨l, hl1, hne, hb⟩
    · exfalso
      have := hcolon line (List.mem_cons_self _ _) (by rw [hkey]; simp)
      exact hc (colon_mem_of_count line this)
    · have hcount := hcolon line (List.mem_cons_self _ _) (by rw [hkey]; simp)
      rw [statusLoop_step R line rest p name hkey hc, leftSide_rightSide_of_count line hcount]
      cases hpf : (R.ParseFloat (strings.Trim (rightSide line) ' ')).2 with
      | some errParse =>
        exact ⟨_, errParse, rfl, line, List.mem_cons_self _ _, by rw [hkey]; simp, hpf⟩
      | none =>
        apply lift
        obtain ⟨l, hl, hne, hb⟩ := hbad
        rcases List.mem_cons.1 hl with rfl | hl1
        · exact absurd hpf hb
        · exact ⟨l, hl1, hne, hb⟩

/-- C7: when every line whose left side is a recognized key has exactly one
colon and the trimmed right side of at least one such line is rejected by
`ParseFloat`, the parser returns the numeric-format error of such a line: an
error that is not nil and is not the status-missing error, whatever the other
lines are and whatever the metric set holds. -/
theorem parseApache2Status_numeric_error (doc : GoString) (p : GoMap F)
    (hcolon : ∀ line ∈ linesOf doc, mapGet Params (leftSide line) ≠ none →
      line.count ':' = 1)
    (hbad : ∃ line ∈ linesOf doc, mapGet Params (leftSide line) ≠ none ∧
      (R.ParseFloat (strings.Trim (rightSide line) ' ')).2 ≠ none) :
    ∃ p1 ne, parseApache2Status R doc p = Exec.ret (p1, some (GoError.numError ne)) ∧
      GoError.numError ne ≠ GoError.errorString "Status data not found.".toList ∧
      ∃ line ∈ linesOf doc, mapGet Params (leftSide line) ≠ none ∧
        (R.ParseFloat (strings.Trim (rightSide line) ' ')).2 = some ne := by
  obtain ⟨p1, ne, hloop, hline⟩ := statusLoop_numError R (linesOf doc) p hcolon hbad
  refine ⟨p1, ne, ?_, by simp, hline⟩
  unfold parseApache2Status
  unfold linesOf at hloop
  rw [hloop]

/-- Witness of C7: `Total Accesses: notanumber` alone, and between two valid
recognized lines. -/
theorem parseApache2Status_numeric_error_witness :
    (∃ p1 ne, parseApache2Status natRuntime "Total Accesses: notanumber\n".toList []
        = Exec.ret (p1, some (GoError.numError ne)) ∧
      GoError.numError ne ≠ GoError.errorString "Status data not found.".toList ∧
      ∃ line ∈ linesOf "Total Accesses: notanumber\n".toList,
        mapGet Params (leftSide line) ≠ none ∧
        (natRuntime.ParseFloat (strings.Trim (rightSide line) ' ')).2 = some ne) ∧
    (∃ p1 ne, parseApache2Status natRuntime
        "BusyWorkers: 3\nTotal Accesses: notanumber\nIdleWorkers: 7\n".toList []
        = Exec.ret (p1, some (GoError.numError ne)) ∧
      GoError.numError ne ≠ GoError.errorString "Status data not found.".toList ∧
      ∃ line ∈ linesOf "BusyWorkers: 3\nTotal Accesses: notanumber\nIdleWorkers: 7\n".toList,
        mapGet Params (leftSide line) ≠ none ∧
        (natRuntime.ParseFloat (strings.Trim (rightSide line) ' ')).2 = some ne) :=
  ⟨parseApache2Status_numeric_error natRuntime "Total Accesses: notanumber\n".toList []
      (by decide) (by decide),
   parseApache2Status_numeric_error natRuntime
      "BusyWorkers: 3\nTotal Accesses: notanumber\nIdleWorkers: 7\n".toList []
      (by decide) (by decide)⟩

/-- C6: called on an empty metric set, `parseApache2Status` returns the error
`Status data not found.` exactly when no line of the document has one of the
five recognized keys as the exact, untrimmed text before its first colon (the
whole line when it has none); the metric set is then still empty. -/
theorem parseApache2Status_not_found_iff (doc : GoString) :
    ((∃ p1, parseApache2Status R doc [] =
        Exec.ret (p1, some (GoError.errorString "Status data not found.".toList))) ↔
      ∀ line ∈ linesOf doc, mapGet Params (leftSide line) = none) ∧
    (∀ p1, parseApache2Status R doc [] =
        Exec.ret (p1, some (GoError.errorString "Status data not found.".toList)) →
      p1 = []) := by
  have key : ∀ p1, parseApache2Status R doc [] =
        Exec.ret (p1, some (GoError.errorString "Status data not found.".toList)) →
      p1 = [] ∧ ∀ line ∈ linesOf doc, mapGet Params (leftSide line) = none := by
    intro p1 h
    unfold parseApache2Status at h
    cases hloop : statusLoop R (strings.Split doc '\n') [] with
    | panic =>
      rw [hloop] at h
      cases h
    | ret a =>
      obtain ⟨q, oe⟩ := a
      rw [hloop] at h
      cases oe with
      | some e =>
        simp only [Exec.ret.injEq, Prod.mk.injEq, Option.some.injEq] at h
        obtain ⟨ne, hne⟩ := statusLoop_error_is_numError R _ _ _ _ hloop
        rw [hne] at h
        cases h.2
      | none =>
        by_cases hlen : mapLen q = 0
        · simp only [hlen, if_true, Exec.ret.injEq, Prod.mk.injEq, and_true] at h
          have hq : q = [] := (mapLen_eq_zero_iff q).1 hlen
          refine ⟨by rw [← h, hq], ?_⟩
          intro line hline
          by_contra hne
          exact statusLoop_ne_nil_of_key R _ _ _ hloop ⟨line, hline, hne⟩ hq
        · simp only [hlen, if_false, Exec.ret.injEq, Prod.mk.injEq] at h
          cases h.2
  refine ⟨⟨?_, ?_⟩, fun p1 h => (key p1 h).1⟩
  · rintro ⟨p1, h⟩
    exact (key p1 h).2
  · intro h
    refine ⟨[], ?_⟩
    unfold parseApache2Status
    have hloop := statusLoop_of_no_key R (strings.Split doc '\n') [] h
    rw [hloop]
    rfl

/-- Witness of C6: `Foo: bar` and ` BusyWorkers: 3` (leading space) both give
the error with an empty metric set. -/
theorem parseApache2Status_not_found_iff_witness :
    (∃ p1, parseApache2Status natRuntime "Foo: bar\n".toList [] =
        Exec.ret (p1, some (GoError.errorString "Status data not found.".toList))) ∧
    (∃ p1, parseApache2Status natRuntime " BusyWorkers: 3\n".toList [] =
        Exec.ret (p1, some (GoError.errorString "Status data not found.".toList))) ∧
    (parseApache2Status natRuntime "Foo: bar\n".toList [] =
        Exec.ret ([], some (GoError.errorString "Status data not found.".toList)) →
      ([] : GoMap Nat) = []) :=
  ⟨(parseApache2Status_not_found_iff natRuntime "Foo: bar\n".toList).1.2 (by decide),
   (parseApache2Status_not_found_iff natRuntime " BusyWorkers: 3\n".toList).1.2 (by decide),
   (parseApache2Status_not_found_iff natRuntime "Foo: bar\n".toList).2 []⟩

end Status

/-! ## The scoreboard parser -/

section Scoreboard

variable {F : Type} (R : Runtime F)

/-- The regular expression matches exactly the lines that contain the
substring `Scoreboard`. -/
theorem matchScoreboard_iff (line : GoString) :
    matchScoreboard line = true ↔ "Scoreboard".toList <:+: line := by
  unfold matchScoreboard
  rw [List.any_eq_true, List.infix_iff_prefix_suffix]
  constructor
  · rintro ⟨t, ht, hp⟩
    exact ⟨t, List.isPrefixOf_iff_prefix.1 hp, (List.mem_tails _ _).1 ht⟩
  · rintro ⟨t, hp, ht⟩
    exact ⟨t, (List.mem_tails _ _).2 ht, List.isPrefixOf_iff_prefix.2 hp⟩

theorem matchScoreboard_eq_false_iff (line : GoString) :
    matchScoreboard line = false ↔ ¬ "Scoreboard".toList <:+: line := by
  rw [← matchScoreboard_iff]
  simp

theorem scoreName_injective (a b : GoString) (h : scoreName a = scoreName b) : a = b := by
  unfold scoreName at h
  exact List.append_cancel_left h

theorem countScores_cons (c : Char) (text : GoString) (p : GoMap F) :
    countScores R (strings.SplitChars (c :: text)) p
      = countScores R (strings.SplitChars text)
          (mapSet p (scoreName [c]) (R.addOne ((mapGet p (scoreName [c])).getD R.zero))) := by
  simp only [strings.SplitChars, List.map_cons, countScores]
  cases mapGet p (scoreName [c]) <;> rfl

/-- Counting leaves unchanged every key that is not the score name of a
character of the text. -/
theorem countScores_frame (text : GoString) (p : GoMap F) (k : GoString)
    (hk : ∀ c ∈ text, k ≠ scoreName [c]) :
    mapGet (countScores R (strings.SplitChars text) p) k = mapGet p k := by
  induction text generalizing p with
  | nil => rfl
  | cons c cs ih =>
    rw [countScores_cons, ih _ (fun d hd => hk d (List.mem_cons_of_mem _ hd))]
    exact mapGet_mapSet_ne _ _ _ _ (fun h => hk c (List.mem_cons_self _ _) h.symm)

/-- Counting adds `1.0` to the score of a character once per occurrence,
starting from `0.0` when the key is absent. -/
theorem countScores_get (text : GoString) (p : GoMap F) (c : Char) :
    mapGet (countScores R (strings.SplitChars text) p) (scoreName [c]) =
      if text.count c = 0 then mapGet p (scoreName [c])
      else some (R.addOne^[text.count c] ((mapGet p (scoreName [c])).getD R.zero)) := by
  induction text generalizing p with
  | nil => simp [strings.SplitChars, countScores]
  | cons d ds ih =>
    rw [countScores_cons, ih]
    by_cases hdc : d = c
    · subst hdc
      rw [List.count_cons_self, mapGet_mapSet_self]
      by_cases h0 : ds.count d = 0
      · simp [h0]
      · simp only [h0, if_false, Nat.succ_ne_zero, Option.getD_some, Option.some.injEq]
        rw [Function.iterate_succ_apply]
    · have hne : scoreName [d] ≠ scoreName [c] := by
        intro h
        have := scoreName_injective _ _ h
        simp at this
        exact hdc this
      rw [List.count_cons_of_ne (fun h => hdc h.symm), mapGet_mapSet_ne _ _ _ _ hne]

theorem countScores_mapWF (pieces : List GoString) (p : GoMap F) (hp : mapWF p) :
    mapWF (countScores R pieces p) := by
  induction pieces generalizing p with
  | nil => exact hp
  | cons sb rest ih =>
    simp only [countScores]
    exact ih _ (mapWF_mapSet _ _ _ hp)

/-- A line that does not contain `Scoreboard` is skipped. -/
theorem scoreboardLoop_skip (line : GoString) (rest : List GoString) (p : GoMap F)
    (h : matchScoreboard line = false) :
    scoreboardLoop R (line :: rest) p = scoreboardLoop R rest p := by
  rw [scoreboardLoop]
  simp only [h, if_true]

/-- The first line that contains `Scoreboard` ends the call: a panic when it
has no colon, the counts of `record[1]` otherwise. -/
theorem scoreboardLoop_hit (line : GoString) (rest : List GoString) (p : GoMap F)
    (h : matchScoreboard line = true) :
    scoreboardLoop R (line :: rest) p =
      match (strings.Split line ':')[1]? with
      | none => Exec.panic
      | some r1 =>
        Exec.ret (countScores R (strings.SplitChars (strings.Trim r1 ' ')) p, none) := by
  rw [scoreboardLoop]
  simp only [h, Bool.true_eq_false, if_false]

theorem scoreboardLoop_of_no_match (lines : List GoString) (p : GoMap F)
    (h : ∀ l ∈ lines, matchScoreboard l = false) :
    scoreboardLoop R lines p =
      Exec.ret (p, some (GoError.errorString "Scoreboard data is not found.".toList)) := by
  induction lines with
  | nil => rfl
  | cons line rest ih =>
    rw [scoreboardLoop_skip R line rest p (h line (List.mem_cons_self _ _))]
    exact ih (fun l hl => h l (List.mem_cons_of_mem _ hl))

theorem scoreboardLoop_skip_all (pre rest : List GoString) (p : GoMap F)
    (h : ∀ l ∈ pre, matchScoreboard l = false) :
    scoreboardLoop R (pre ++ rest) p = scoreboardLoop R rest p := by
  induction pre with
  | nil => rfl
  | cons line more ih =>
    rw [List.cons_append, scoreboardLoop_skip R line _ p (h line (List.mem_cons_self _ _))]
    exact ih (fun l hl => h l (List.mem_cons_of_mem _ hl))

/-- A loop that returns an error met no line containing `Scoreboard` and left
the metric set as it was. -/
theorem scoreboardLoop_error (lines : List GoString) (p p1 : GoMap F) (e : GoError)
    (h : scoreboardLoop R lines p = Exec.ret (p1, some e)) :
    (∀ l ∈ lines, matchScoreboard l = false) ∧ p1 = p := by
  induction lines with
  | nil =>
    simp only [scoreboardLoop, Exec.ret.injEq, Prod.mk.injEq] at h
    exact ⟨by simp, h.1.symm⟩
  | cons line rest ih =>
    cases hm : matchScoreboard line with
    | false =>
      rw [scoreboardLoop_skip R line rest p hm] at h
      obtain ⟨h1, h2⟩ := ih h
      refine ⟨?_, h2⟩
      intro l hl
      rcases List.mem_cons.1 hl with rfl | hl1
      · exact hm
      · exact h1 l hl1
    | true =>
      rw [scoreboardLoop_hit R line rest p hm] at h
      cases hr : (strings.Split line ':')[1]? with
      | none =>
        rw [hr] at h
        cases h
      | some r1 =>
        rw [hr] at h
        simp at h

/-- C8: `parseApache2Scoreboard` returns the error `Scoreboard data is not
found.` exactly when no line of the document contains the substring
`Scoreboard` (case-sensitive), and it then leaves the metric set unchanged. -/
theorem parseApache2Scoreboard_not_found_iff (doc : GoString) (p : GoMap F) :
    ((∃ p1, parseApache2Scoreboard R doc p =
        Exec.ret (p1, some (GoError.errorString "Scoreboard data is not found.".toList))) ↔
      ∀ line ∈ linesOf doc, ¬ "Scoreboard".toList <:+: line) ∧
    (∀ p1, parseApache2Scoreboard R doc p =
        Exec.ret (p1, some (GoError.errorString "Scoreboard data is not found.".toList)) →
      p1 = p) := by
  refine ⟨⟨?_, ?_⟩, ?_⟩
  · rintro ⟨p1, h⟩ line hline
    exact (matchScoreboard_eq_false_iff line).1 ((scoreboardLoop_error R _ _ _ _ h).1 line hline)
  · intro h
    refine ⟨p, scoreboardLoop_of_no_match R _ p ?_⟩
    intro l hl
    exact (matchScoreboard_eq_false_iff l).2 (h l hl)
  · intro p1 h
    exact (scoreboardLoop_error R _ _ _ _ h).2

/-- Witness of C8: `NoMarkerHere` and the lower-case `scoreboard: _S_` both
give the error and leave the metric set unchanged. -/
theorem parseApache2Scoreboard_not_found_iff_witness :
    (parseApache2Scoreboard natRuntime "NoMarkerHere\n".toList [("a".toList, 1)] =
        Exec.ret ([("a".toList, 1)],
          some (GoError.errorString "Scoreboard data is not found.".toList)) →
      ([("a".toList, 1)] : GoMap Nat) = [("a".toList, 1)]) ∧
    (parseApache2Scoreboard natRuntime "scoreboard: _S_\n".toList [("a".toList, 1)] =
        Exec.ret ([("a".toList, 1)],
          some (GoError.errorString "Scoreboard data is not found.".toList)) →
      ([("a".toList, 1)] : GoMap Nat) = [("a".toList, 1)]) ∧
    parseApache2Scoreboard natRuntime "NoMarkerHere\n".toList [("a".toList, 1)] =
        Exec.ret ([("a".toList, 1)],
          some (GoError.errorString "Scoreboard data is not found.".toList)) ∧
    parseApache2Scoreboard natRuntime "scoreboard: _S_\n".toList [("a".toList, 1)] =
        Exec.ret ([("a".toList, 1)],
          some (GoError.errorString "Scoreboard data is not found.".toList)) :=
  ⟨(parseApache2Scoreboard_not_found_iff natRuntime "NoMarkerHere\n".toList
      [("a".toList, 1)]).2 [("a".toList, 1)],
   (parseApache2Scoreboard_not_found_iff natRuntime "scoreboard: _S_\n".toList
      [("a".toList, 1)]).2 [("a".toList, 1)],
   by decide, by decide⟩

/-- C5: when the first line of the document that contains `Scoreboard` has
exactly one colon, `parseApache2Scoreboard` returns no error; for every
character `c` of the trimmed text after that colon it sets
`Scoreboard.score-<c>` to its previous value (`0.0` when the key was absent)
incremented by `1.0` once per occurrence of `c` in that text; it changes no
other key; and the lines after that line have no effect. -/
theorem parseApache2Scoreboard_counts (doc : GoString) (p : GoMap F)
    (pre post : List GoString) (line : GoString)
    (hsplit : linesOf doc = pre ++ line :: post)
    (hpre : ∀ l ∈ pre, ¬ "Scoreboard".toList <:+: l)
    (hline : "Scoreboard".toList <:+: line)
    (hcount : line.count ':' = 1) :
    ∃ p1, parseApache2Scoreboard R doc p = Exec.ret (p1, none) ∧
      (∀ c ∈ strings.Trim (rightSide line) ' ',
        mapGet p1 (scoreName [c]) =
          some (R.addOne^[(strings.Trim (rightSide line) ' ').count c]
            ((mapGet p (scoreName [c])).getD R.zero))) ∧
      (∀ k, (∀ c ∈ strings.Trim (rightSide line) ' ', k ≠ scoreName [c]) →
        mapGet p1 k = mapGet p k) ∧
      (∀ doc2 post2, linesOf doc2 = pre ++ line :: post2 →
        parseApache2Scoreboard R doc2 p = Exec.ret (p1, none)) := by
  have hpre1 : ∀ l ∈ pre, matchScoreboard l = false :=
    fun l hl => (matchScoreboard_eq_false_iff l).2 (hpre l hl)
  have hline1 : matchScoreboard line = true := (matchScoreboard_iff line).2 hline
  have hrun : ∀ rest, scoreboardLoop R (pre ++ line :: rest) p =
      Exec.ret (countScores R (strings.SplitChars (strings.Trim (rightSide line) ' ')) p,
        none) := by
    intro rest
    rw [scoreboardLoop_skip_all R pre _ p hpre1, scoreboardLoop_hit R line rest p hline1,
      Split_get_one_of_count line hcount]
  refine ⟨countScores R (strings.SplitChars (strings.Trim (rightSide line) ' ')) p,
    ?_, ?_, ?_, ?_⟩
  · unfold parseApache2Scoreboard
    unfold linesOf at hsplit
    rw [hsplit]
    exact hrun post
  · intro c hc
    rw [countScores_get]
    have : (strings.Trim (rightSide line) ' ').count c ≠ 0 :=
      Nat.pos_iff_ne_zero.1 (List.count_pos_iff.2 hc)
    simp only [this, if_false]
  · intro k hk
    exact countScores_frame R _ p k hk
  · intro doc2 post2 h2
    unfold parseApache2Scoreboard
    unfold linesOf at h2
    rw [h2]
    exact hrun post2

/-- Witness of C5: on the empty metric set `Scoreboard: _S_` gives exactly
`Scoreboard.score-_ ↦ 2` and `Scoreboard.score-S ↦ 1`. -/
theorem parseApache2Scoreboard_counts_witness :
    parseApache2Scoreboard natRuntime "Scoreboard: _S_\n".toList []
      = Exec.ret ([("Scoreboard.score-_".toList, 2), ("Scoreboard.score-S".toList, 1)], none) ∧
    ∃ p1, parseApache2Scoreboard natRuntime "Scoreboard: _S_\n".toList [] = Exec.ret (p1, none) ∧
      (∀ c ∈ strings.Trim (rightSide "Scoreboard: _S_".toList) ' ',
        mapGet p1 (scoreName [c]) =
          some (natRuntime.addOne^[(strings.Trim (rightSide "Scoreboard: _S_".toList) ' ').count c]
            ((mapGet ([] : GoMap Nat) (scoreName [c])).getD natRuntime.zero))) ∧
      (∀ k, (∀ c ∈ strings.Trim (rightSide "Scoreboard: _S_".toList) ' ', k ≠ scoreName [c]) →
        mapGet p1 k = mapGet ([] : GoMap Nat) k) ∧
      (∀ doc2 post2, linesOf doc2 = [] ++ "Scoreboard: _S_".toList :: post2 →
        parseApache2Scoreboard natRuntime doc2 [] = Exec.ret (p1, none)) :=
  ⟨by decide,
   parseApache2Scoreboard_counts natRuntime "Scoreboard: _S_\n".toList [] [] [[]]
    "Scoreboard: _S_".toList (by decide) (by simp) (by decide) (by decide)⟩

end Scoreboard

/-! ## The port worker -/

section Worker

variable {F : Type} (R : Runtime F)

/-- A name of the table `Params` is not a score name. -/
theorem Params_name_ne_scoreName (key name sb : GoString)
    (h : mapGet Params key = some name) : name ≠ scoreName sb := by
  intro heq
  unfold scoreName at heq
  rcases Params_cases key name h with ⟨_, b⟩ | ⟨_, b⟩ | ⟨_, b⟩ | ⟨_, b⟩ | ⟨_, b⟩ <;>
  · rw [b] at heq
    cases heq

/-- Every key of the metric set a successful status parse builds from the
empty set is a name of the table `Params`. -/
theorem parseApache2Status_keys (doc : GoString) (s : GoMap F)
    (h : parseApache2Status R doc [] = Exec.ret (s, none)) (k : GoString)
    (hk : mapGet s k ≠ none) : ∃ key, mapGet Params key = some k := by
  have hloop := statusLoop_of_parse_ok R doc [] s h
  by_contra hno
  apply hk
  rw [statusLoop_frame R (linesOf doc) [] s k hloop (fun l _ hl => hno ⟨leftSide l, hl⟩)]
  rfl

/-- A scoreboard parse that succeeds on one metric set succeeds on every
metric set, counting the same text. -/
theorem scoreboardLoop_ok (lines : List GoString) (p p1 : GoMap F)
    (h : scoreboardLoop R lines p = Exec.ret (p1, none)) :
    ∃ text, ∀ q, scoreboardLoop R lines q =
      Exec.ret (countScores R (strings.SplitChars text) q, none) := by
  induction lines with
  | nil => simp [scoreboardLoop] at h
  | cons line rest ih =>
    cases hm : matchScoreboard line with
    | false =>
      rw [scoreboardLoop_skip R line rest p hm] at h
      obtain ⟨text, ht⟩ := ih h
      exact ⟨text, fun q => by rw [scoreboardLoop_skip R line rest q hm]; exact ht q⟩
    | true =>
      rw [scoreboardLoop_hit R line rest p hm] at h
      cases hr : (strings.Split line ':')[1]? with
      | none =>
        rw [hr] at h
        cases h
      | some r1 =>
        exact ⟨strings.Trim r1 ' ', fun q => by rw [scoreboardLoop_hit R line rest q hm, hr]⟩

/-- The value read under any key after counting the characters of a text. -/
theorem countScores_lookup (text : GoString) (p : GoMap F) (k : GoString) :
    (∃ c ∈ text, k = scoreName [c] ∧
      mapGet (countScores R (strings.SplitChars text) p) k =
        some (R.addOne^[text.count c] ((mapGet p k).getD R.zero))) ∨
    ((∀ c ∈ text, k ≠ scoreName [c]) ∧
      mapGet (countScores R (strings.SplitChars text) p) k = mapGet p k) := by
  by_cases hk : ∃ c ∈ text, k = scoreName [c]
  · obtain ⟨c, hc, hkc⟩ := hk
    left
    refine ⟨c, hc, hkc, ?_⟩
    rw [hkc, countScores_get]
    have : text.count c ≠ 0 := Nat.pos_iff_ne_zero.1 (List.count_pos_iff.2 hc)
    simp only [this, if_false]
  · right
    have hk1 : ∀ c ∈ text, k ≠ scoreName [c] := fun c hc heq => hk ⟨c, hc, heq⟩
    exact ⟨hk1, countScores_frame R text p k hk1⟩

/-- C10: for a document on which both parsers succeed from the empty metric
set, the worker posts a metric set that is the disjoint union of the two: a
key reads the value the status parser gave it when it has one and the value
the scoreboard parser gave it otherwise, no key has a value in both, and every
key of the scoreboard parser is a `Scoreboard.score-<c>`. -/
theorem fetchMetrics4Port_stat_is_union (doc : GoString) (port : Int) (s b : GoMap F)
    (hstat : parseApache2Status R doc [] = Exec.ret (s, none))
    (hscore : parseApache2Scoreboard R doc [] = Exec.ret (b, none)) :
    ∃ m, fetchMetrics4Port R port (doc, none) = ⟨⟨port, some m, none⟩, false⟩ ∧
      mapWF m ∧
      (∀ k, mapGet m k = unionGet s b k) ∧
      (∀ k, mapGet s k = none ∨ mapGet b k = none) ∧
      (∀ k v, mapGet s k = some v → mapGet m k = some v) ∧
      (∀ k, mapGet b k ≠ none → ∃ c, k = scoreName [c]) := by
  obtain ⟨text, htext⟩ := scoreboardLoop_ok R (linesOf doc) [] b hscore
  have hb : b = countScores R (strings.SplitChars text) [] := by
    have h1 := htext []
    have h2 : scoreboardLoop R (linesOf doc) [] = Exec.ret (b, none) := hscore
    rw [h2] at h1
    simp only [Exec.ret.injEq, Prod.mk.injEq, and_true] at h1
    exact h1
  have hm : parseApache2Scoreboard R doc s =
      Exec.ret (countScores R (strings.SplitChars text) s, none) := htext s
  have hswf : mapWF s :=
    statusLoop_mapWF R _ _ _ _ (statusLoop_of_parse_ok R doc [] s hstat) mapWF_nil
  have hsnone : ∀ k c, k = scoreName [c] → mapGet s k = none := by
    intro k c hkc
    by_contra hne
    obtain ⟨key, hkey⟩ := parseApache2Status_keys R doc s hstat k hne
    exact Params_name_ne_scoreName key k [c] hkey hkc
  have hunion : ∀ k, mapGet (countScores R (strings.SplitChars text) s) k =
      unionGet s b k := by
    intro k
    unfold unionGet
    rw [hb]
    rcases countScores_lookup R text s k with ⟨c, hc, hkc, hval⟩ | ⟨hk1, hval⟩
    · rw [hval, hsnone k c hkc]
      simp only
      rw [hkc, countScores_get, ← hkc]
      have : text.count c ≠ 0 := Nat.pos_iff_ne_zero.1 (List.count_pos_iff.2 hc)
      simp only [this, if_false]
      rfl
    · rw [hval, countScores_frame R text [] k hk1]
      cases mapGet s k <;> rfl
  refine ⟨countScores R (strings.SplitChars text) s, ?_, countScores_mapWF R _ s hswf,
    hunion, ?_, ?_, ?_⟩
  · unfold fetchMetrics4Port
    simp only [hstat, hm]
  · intro k
    rcases countScores_lookup R text ([] : GoMap F) k with ⟨c, _, hkc, _⟩ | ⟨_, hval⟩
    · exact Or.inl (hsnone k c hkc)
    · right
      rw [hb, hval]
      rfl
  · intro k v hv
    rw [hunion]
    unfold unionGet
    rw [hv]
  · intro k hk
    rcases countScores_lookup R text ([] : GoMap F) k with ⟨c, _, hkc, _⟩ | ⟨_, hval⟩
    · exact ⟨c, hkc⟩
    · exfalso
      apply hk
      rw [hb, hval]
      rfl

/-- Witness of C10: a status line and a scoreboard line. -/
theorem fetchMetrics4Port_stat_is_union_witness :
    ∃ m, fetchMetrics4Port natRuntime 80 ("BusyWorkers: 3\nScoreboard: _S_\n".toList, none)
        = ⟨⟨80, some m, none⟩, false⟩ ∧
      mapWF m ∧
      (∀ k, mapGet m k = unionGet [("Workers.busy_workers".toList, 3)]
        [("Scoreboard.score-_".toList, 2), ("Scoreboard.score-S".toList, 1)] k) ∧
      (∀ k, mapGet [("Workers.busy_workers".toList, 3)] k = none ∨
        mapGet [("Scoreboard.score-_".toList, 2), ("Scoreboard.score-S".toList, 1)] k
          = (none : Option Nat)) ∧
      (∀ k v, mapGet [("Workers.busy_workers".toList, 3)] k = some v → mapGet m k = some v) ∧
      (∀ k, mapGet [("Scoreboard.score-_".toList, 2), ("Scoreboard.score-S".toList, 1)] k
          ≠ (none : Option Nat) → ∃ c, k = scoreName [c]) :=
  fetchMetrics4Port_stat_is_union natRuntime "BusyWorkers: 3\nScoreboard: _S_\n".toList 80
    [("Workers.busy_workers".toList, 3)]
    [("Scoreboard.score-_".toList, 2), ("Scoreboard.score-S".toList, 1)]
    (by decide) (by decide)

/-- When the worker does not panic it posts its port and exactly one of
`Stat` and `Err`. -/
theorem fetchMetrics4Port_exactly_one (port : Int) (fetched : GoString × Option GoError)
    (h : (fetchMetrics4Port R port fetched).panicked = false) :
    (fetchMetrics4Port R port fetched).posted.Port = port ∧
    (((fetchMetrics4Port R port fetched).posted.Stat = none ∧
        ∃ cause, (fetchMetrics4Port R port fetched).posted.Err = some (failedAt R port cause)) ∨
     ((fetchMetrics4Port R port fetched).posted.Err = none ∧
        ∃ stat, (fetchMetrics4Port R port fetched).posted.Stat = some stat)) := by
  cases hf : fetched.2 with
  | some err =>
    have e : fetchMetrics4Port R port fetched
        = ⟨⟨port, none, some (failedAt R port err)⟩, false⟩ := by
      unfold fetchMetrics4Port
      simp only [hf]
    rw [e]
    exact ⟨rfl, Or.inl ⟨rfl, err, rfl⟩⟩
  | none =>
    cases hs : parseApache2Status R fetched.1 [] with
    | panic =>
      have e : fetchMetrics4Port R port fetched = ⟨⟨port, none, none⟩, true⟩ := by
        unfold fetchMetrics4Port
        simp only [hf, hs]
      rw [e] at h
      cases h
    | ret x =>
      obtain ⟨stat, oe⟩ := x
      cases oe with
      | some err =>
        have e : fetchMetrics4Port R port fetched
            = ⟨⟨port, none, some (failedAt R port err)⟩, false⟩ := by
          unfold fetchMetrics4Port
          simp only [hf, hs]
        rw [e]
        exact ⟨rfl, Or.inl ⟨rfl, err, rfl⟩⟩
      | none =>
        cases hb : parseApache2Scoreboard R fetched.1 stat with
        | panic =>
          have e : fetchMetrics4Port R port fetched = ⟨⟨port, none, none⟩, true⟩ := by
            unfold fetchMetrics4Port
            simp only [hf, hs, hb]
          rw [e] at h
          cases h
        | ret y =>
          obtain ⟨stat1, oe1⟩ := y
          cases oe1 with
          | some err =>
            have e : fetchMetrics4Port R port fetched
                = ⟨⟨port, none, some (failedAt R port err)⟩, false⟩ := by
              unfold fetchMetrics4Port
              simp only [hf, hs, hb]
            rw [e]
            exact ⟨rfl, Or.inl ⟨rfl, err, rfl⟩⟩
          | none =>
            have e : fetchMetrics4Port R port fetched
                = ⟨⟨port, some stat1, none⟩, false⟩ := by
              unfold fetchMetrics4Port
              simp only [hf, hs, hb]
            rw [e]
            exact ⟨rfl, Or.inr ⟨rfl, stat1, rfl⟩⟩

/-- C9 at the document `CPULoad`, a recognized key without a colon, fetched
without error: the status parser panics on `record[1]`, the deferred send
posts a result in which neither `Stat` nor `Err` is set, and the goroutine
ends in the panic. -/
theorem fetchMetrics4Port_posts_neither (port : Int) :
    parseApache2Status R "CPULoad".toList [] = Exec.panic ∧
    (fetchMetrics4Port R port ("CPULoad".toList, none)).posted.Port = port ∧
    (fetchMetrics4Port R port ("CPULoad".toList, none)).posted.Stat = none ∧
    (fetchMetrics4Port R port ("CPULoad".toList, none)).posted.Err = none ∧
    (fetchMetrics4Port R port ("CPULoad".toList, none)).panicked = true := by
  have h : parseApache2Status R "CPULoad".toList [] = Exec.panic := rfl
  refine ⟨h, ?_, ?_, ?_, ?_⟩ <;>
  · unfold fetchMetrics4Port
    simp only [h]

/-- The order of the steps: a document with a non-numeric recognized value
and no scoreboard line reports the numeric-format error, and a failed fetch
reports the fetch error whatever the document is. -/
theorem fetchMetrics4Port_first_failure :
    (fetchMetrics4Port natRuntime 80 ("BusyWorkers: x\n".toList, none)).posted.Err
      = some (failedAt natRuntime 80
          (GoError.numError ⟨"ParseFloat".toList, "x".toList, "invalid syntax".toList⟩)) ∧
    (fetchMetrics4Port natRuntime 80
        ("BusyWorkers: x\n".toList, some (GoError.other "refused".toList))).posted.Err
      = some (failedAt natRuntime 80 (GoError.other "refused".toList)) ∧
    (failedAt natRuntime 80 (GoError.other "refused".toList))
      = GoError.errorString "Failed at port=80: refused".toList := by
  decide

end Worker

/-! ## The aggregation loop -/

section Aggregation

variable {F : Type}

theorem fetchLoop_of_first_error (pre : List (Metrics4Channel F)) (r : Metrics4Channel F)
    (post : List (Metrics4Channel F)) (e : GoError) (hpre : ∀ x ∈ pre, x.Err = none)
    (hr : r.Err = some e) (stats : GoMap F) :
    fetchLoop (pre ++ r :: post) stats = ⟨none, some e, post⟩ := by
  induction pre generalizing stats with
  | nil => simp [fetchLoop, hr]
  | cons x xs ih =>
    have hx : x.Err = none := hpre x (List.mem_cons_self _ _)
    have hxs : ∀ y ∈ xs, y.Err = none := fun y hy => hpre y (List.mem_cons_of_mem _ hy)
    cases hs : x.Stat with
    | none => simp [fetchLoop, hx, hs, ih hxs]
    | some s => simp [fetchLoop, hx, hs, ih hxs]

theorem fetchLoop_of_no_error (l : List (Metrics4Channel F)) (hl : ∀ x ∈ l, x.Err = none)
    (stats : GoMap F) :
    ∃ m, fetchLoop l stats = ⟨some m, none, []⟩ := by
  induction l generalizing stats with
  | nil => exact ⟨stats, rfl⟩
  | cons x xs ih =>
    have hx : x.Err = none := hl x (List.mem_cons_self _ _)
    have hxs : ∀ y ∈ xs, y.Err = none := fun y hy => hl y (List.mem_cons_of_mem _ hy)
    cases hs : x.Stat with
    | none => simpa [fetchLoop, hx, hs] using ih hxs stats
    | some s => simpa [fetchLoop, hx, hs] using ih hxs _

/-- A sequence of results either carries no error, or splits at its first
erroring result. -/
theorem first_error_split (l : List (Metrics4Channel F)) :
    (∀ x ∈ l, x.Err = none) ∨
    ∃ pre r post e, l = pre ++ r :: post ∧ (∀ x ∈ pre, x.Err = none) ∧ r.Err = some e := by
  induction l with
  | nil => left; simp
  | cons x xs ih =>
    cases hx : x.Err with
    | some e => right; exact ⟨[], x, xs, e, rfl, by simp, hx⟩
    | none =>
      rcases ih with h | ⟨pre, r, post, e, hl, hpre, hr⟩
      · left
        intro y hy
        rcases List.mem_cons.1 hy with rfl | h1
        · exact hx
        · exact h y h1
      · right
        refine ⟨x :: pre, r, post, e, by simp [hl], ?_, hr⟩
        intro y hy
        rcases List.mem_cons.1 hy with rfl | h1
        · exact hx
        · exact hpre y h1

theorem mergeStat_eq_assignAll (port : Int) (s stats : GoMap F) :
    mergeStat port s stats
      = assignAll (s.map (fun e => (metricKey port e.1, e.2))) stats := by
  induction s generalizing stats with
  | nil => rfl
  | cons e rest ih =>
    simp only [mergeStat, ih, assignAll, List.map_cons, List.foldl_cons]

theorem fetchLoop_eq_assignAll (l : List (Metrics4Channel F)) (hl : ∀ x ∈ l, x.Err = none)
    (stats : GoMap F) :
    fetchLoop l stats = ⟨some (assignAll (l.flatMap updatesOf) stats), none, []⟩ := by
  induction l generalizing stats with
  | nil => rfl
  | cons x xs ih =>
    have hx : x.Err = none := hl x (List.mem_cons_self _ _)
    have hxs : ∀ y ∈ xs, y.Err = none := fun y hy => hl y (List.mem_cons_of_mem _ hy)
    rw [List.flatMap_cons, assignAll_append]
    cases hs : x.Stat with
    | none =>
      simp only [fetchLoop, hx, hs, ih hxs, updatesOf, Option.getD_none, List.map_nil]
      rfl
    | some s =>
      simp only [fetchLoop, hx, hs, ih hxs, updatesOf, Option.getD_some,
        mergeStat_eq_assignAll]

theorem mem_updatesOf (r : Metrics4Channel F) (k : GoString) (v : F) :
    (k, v) ∈ updatesOf r ↔
      ∃ s name, r.Stat = some s ∧ (name, v) ∈ s ∧ k = metricKey r.Port name := by
  unfold updatesOf
  cases hs : r.Stat with
  | none => simp
  | some s =>
    simp only [Option.getD_some, List.mem_map, Prod.mk.injEq, Option.some.injEq]
    constructor
    · rintro ⟨e, he, hk, hv⟩
      exact ⟨s, e.1, rfl, by rw [← hv]; exact he, hk.symm⟩
    · rintro ⟨s1, name, hs1, hmem, hk⟩
      subst hs1
      exact ⟨(name, v), hmem, hk.symm, rfl⟩

theorem mapWF_updatesOf (r : Metrics4Channel F) (h : ∀ s, r.Stat = some s → mapWF s) :
    mapWF (updatesOf r) := by
  unfold updatesOf
  cases hs : r.Stat with
  | none => simp [mapWF]
  | some s =>
    have hwf := h s hs
    unfold mapWF at *
    simp only [Option.getD_some, List.map_map]
    have : (Prod.fst ∘ fun e : GoString × F => (metricKey r.Port e.1, e.2))
        = (fun n => metricKey r.Port n) ∘ Prod.fst := by
      funext e
      rfl
    rw [this, ← List.map_map]
    exact hwf.map (fun a b hab => (metricKey_injective _ _ _ _ hab).2)

theorem mapWF_flatMap_updatesOf (rs : List (Metrics4Channel F))
    (hports : (rs.map (fun r => r.Port)).Nodup)
    (hwf : ∀ r ∈ rs, ∀ s, r.Stat = some s → mapWF s) :
    mapWF (rs.flatMap updatesOf) := by
  induction rs with
  | nil => simp [mapWF]
  | cons x xs ih =>
    rw [List.map_cons] at hports
    have hnd := List.nodup_cons.1 hports
    have hxs := ih hnd.2 (fun r hr => hwf r (List.mem_cons_of_mem _ hr))
    have hx := mapWF_updatesOf x (hwf x (List.mem_cons_self _ _))
    unfold mapWF at *
    rw [List.flatMap_cons, List.map_append]
    refine List.Nodup.append hx hxs ?_
    intro k hk1 hk2
    obtain ⟨e1, he1, hk1⟩ := List.mem_map.1 hk1
    obtain ⟨e2, he2, hk2⟩ := List.mem_map.1 hk2
    obtain ⟨r, hr, he2r⟩ := List.mem_flatMap.1 he2
    obtain ⟨s1, n1, _, _, hkey1⟩ := (mem_updatesOf x e1.1 e1.2).1 he1
    obtain ⟨s2, n2, _, _, hkey2⟩ := (mem_updatesOf r e2.1 e2.2).1 he2r
    have hport : x.Port = r.Port := by
      have : metricKey x.Port n1 = metricKey r.Port n2 := by
        rw [← hkey1, ← hkey2, hk1, hk2]
      exact (metricKey_injective _ _ _ _ this).1
    exact hnd.1 (List.mem_map.2 ⟨r, hr, hport.symm⟩)

/-- The map `FetchMetrics` returns when no result carries an error and the
ports are pairwise distinct: its entries are the entries of the results under
their qualified keys. -/
theorem FetchMetrics_entries (rs : List (Metrics4Channel F))
    (hok : ∀ r ∈ rs, r.Err = none)
    (hports : (rs.map (fun r => r.Port)).Nodup)
    (hwf : ∀ r ∈ rs, ∀ s, r.Stat = some s → mapWF s) :
    ∃ m, FetchMetrics rs = ⟨some m, none, []⟩ ∧ mapWF m ∧
      ∀ k v, mapGet m k = some v ↔
        ∃ r ∈ rs, ∃ s name, r.Stat = some s ∧ mapGet s name = some v ∧
          k = metricKey r.Port name := by
  refine ⟨assignAll (rs.flatMap updatesOf) [], fetchLoop_eq_assignAll rs hok [],
    mapWF_assignAll _ _ mapWF_nil, ?_⟩
  intro k v
  have hU := mapWF_flatMap_updatesOf rs hports hwf
  rw [mapGet_assignAll _ hU]
  have hget : (match mapGet (rs.flatMap updatesOf) k with
      | some v => some v
      | none => mapGet ([] : GoMap F) k) = mapGet (rs.flatMap updatesOf) k := by
    cases mapGet (rs.flatMap updatesOf) k <;> rfl
  rw [hget, mapGet_eq_some_iff _ hU, List.mem_flatMap]
  constructor
  · rintro ⟨r, hr, hmem⟩
    obtain ⟨s, name, hs, hin, hk⟩ := (mem_updatesOf r k v).1 hmem
    exact ⟨r, hr, s, name, hs, (mapGet_eq_some_iff s (hwf r hr s hs) name v).2 hin, hk⟩
  · rintro ⟨r, hr, s, name, hs, hin, hk⟩
    exact ⟨r, hr, (mem_updatesOf r k v).2
      ⟨s, name, hs, (mapGet_eq_some_iff s (hwf r hr s hs) name v).1 hin, hk⟩⟩

/-- C2: when no result carries an error and the ports are pairwise distinct,
`FetchMetrics` returns no error and a map whose entries are exactly
`apache2.<port>.<MetricName> ↦ value`, one for every result and every entry of
its metric set, the port written in decimal (`metricKey`); every permutation
of the arrival order gives a map with the same entries, and with no port the
map is empty. -/
theorem FetchMetrics_all_success (rs : List (Metrics4Channel F))
    (hok : ∀ r ∈ rs, r.Err = none)
    (hports : (rs.map (fun r => r.Port)).Nodup)
    (hwf : ∀ r ∈ rs, ∀ s, r.Stat = some s → mapWF s) :
    ∃ m, (FetchMetrics rs).stats = some m ∧ (FetchMetrics rs).err = none ∧ mapWF m ∧
      (∀ k v, mapGet m k = some v ↔
        ∃ r ∈ rs, ∃ s name, r.Stat = some s ∧ mapGet s name = some v ∧
          k = metricKey r.Port name) ∧
      (∀ rs1, rs1.Perm rs →
        ∃ m1, (FetchMetrics rs1).stats = some m1 ∧ (FetchMetrics rs1).err = none ∧
          mapWF m1 ∧ ∀ k, mapGet m1 k = mapGet m k) ∧
      (rs = [] → m = []) := by
  obtain ⟨m, hm, hmwf, hment⟩ := FetchMetrics_entries rs hok hports hwf
  refine ⟨m, by rw [hm], by rw [hm], hmwf, hment, ?_, ?_⟩
  · intro rs1 hperm
    have hok1 : ∀ r ∈ rs1, r.Err = none := fun r hr => hok r (hperm.mem_iff.1 hr)
    have hports1 : (rs1.map (fun r => r.Port)).Nodup :=
      ((hperm.map _).nodup_iff).2 hports
    have hwf1 : ∀ r ∈ rs1, ∀ s, r.Stat = some s → mapWF s :=
      fun r hr => hwf r (hperm.mem_iff.1 hr)
    obtain ⟨m1, hm1, hm1wf, hm1ent⟩ := FetchMetrics_entries rs1 hok1 hports1 hwf1
    refine ⟨m1, by rw [hm1], by rw [hm1], hm1wf, ?_⟩
    intro k
    apply Option.ext
    intro v
    show mapGet m1 k = some v ↔ mapGet m k = some v
    rw [hm1ent, hment]
    constructor
    · rintro ⟨r, hr, rest⟩
      exact ⟨r, hperm.mem_iff.1 hr, rest⟩
    · rintro ⟨r, hr, rest⟩
      exact ⟨r, hperm.mem_iff.2 hr, rest⟩
  · intro hnil
    subst hnil
    simp only [FetchMetrics, fetchLoop] at hm
    injection hm with h1
    injection h1 with h1
    exact h1.symm

/-- Witness of C2: two ports, the second arriving first. -/
theorem FetchMetrics_all_success_witness :
    ∃ m, (FetchMetrics [⟨81, some [("a".toList, 1)], none⟩,
        (⟨80, some [("a".toList, 2), ("b".toList, 3)], none⟩ : Metrics4Channel Nat)]).stats
        = some m ∧
      (FetchMetrics [⟨81, some [("a".toList, 1)], none⟩,
        (⟨80, some [("a".toList, 2), ("b".toList, 3)], none⟩ : Metrics4Channel Nat)]).err
        = none ∧ mapWF m ∧
      (∀ k v, mapGet m k = some v ↔
        ∃ r ∈ [⟨81, some [("a".toList, 1)], none⟩,
          (⟨80, some [("a".toList, 2), ("b".toList, 3)], none⟩ : Metrics4Channel Nat)],
        ∃ s name, r.Stat = some s ∧ mapGet s name = some v ∧
          k = metricKey r.Port name) ∧
      (∀ rs1, rs1.Perm [⟨81, some [("a".toList, 1)], none⟩,
          (⟨80, some [("a".toList, 2), ("b".toList, 3)], none⟩ : Metrics4Channel Nat)] →
        ∃ m1, (FetchMetrics rs1).stats = some m1 ∧ (FetchMetrics rs1).err = none ∧
          mapWF m1 ∧ ∀ k, mapGet m1 k = mapGet m k) ∧
      (([⟨81, some [("a".toList, 1)], none⟩,
          (⟨80, some [("a".toList, 2), ("b".toList, 3)], none⟩ : Metrics4Channel Nat)]
          : List (Metrics4Channel Nat)) = [] → m = []) :=
  FetchMetrics_all_success _ (by simp) (by simp)
    (by
      intro r hr s hs
      simp only [List.mem_cons, List.mem_singleton, List.not_mem_nil, or_false] at hr
      rcases hr with rfl | rfl
      · simp only [Option.some.injEq] at hs
        subst hs
        simp [mapWF]
      · simp only [Option.some.injEq] at hs
        subst hs
        simp [mapWF])

/-- C1: `FetchMetrics` returns an error exactly when some received result
carries one; the error is then that of the first erroring result in arrival
order and the map returned is nil, whatever the results that arrived before
or after it carry. -/
theorem FetchMetrics_error_is_first_error (arrivals : List (Metrics4Channel F)) :
    ((FetchMetrics arrivals).err ≠ none ↔ ∃ r ∈ arrivals, r.Err ≠ none) ∧
    (∀ pre r post e, arrivals = pre ++ r :: post → (∀ x ∈ pre, x.Err = none) →
      r.Err = some e →
      (FetchMetrics arrivals).err = some e ∧ (FetchMetrics arrivals).stats = none) := by
  constructor
  · rcases first_error_split arrivals with h | ⟨pre, r, post, e, hl, hpre, hr⟩
    · obtain ⟨m, hm⟩ := fetchLoop_of_no_error arrivals h []
      constructor
      · intro hne
        simp [FetchMetrics, hm] at hne
      · rintro ⟨r, hr, hne⟩
        exact absurd (h r hr) hne
    · constructor
      · intro _
        exact ⟨r, by simp [hl], by simp [hr]⟩
      · intro _
        simp [FetchMetrics, hl, fetchLoop_of_first_error pre r post e hpre hr]
  · intro pre r post e hl hpre hr
    simp [FetchMetrics, hl, fetchLoop_of_first_error pre r post e hpre hr]

/-- Witness of C1: a success, then two failures, then a success. -/
theorem FetchMetrics_error_is_first_error_witness :
    (FetchMetrics
      [⟨80, some [("a".toList, 1)], none⟩, ⟨81, none, some (GoError.other "x".toList)⟩,
       ⟨82, none, some (GoError.other "y".toList)⟩,
       (⟨83, some [("b".toList, 2)], none⟩ : Metrics4Channel Nat)]).err
      = some (GoError.other "x".toList) ∧
    (FetchMetrics
      [⟨80, some [("a".toList, 1)], none⟩, ⟨81, none, some (GoError.other "x".toList)⟩,
       ⟨82, none, some (GoError.other "y".toList)⟩,
       (⟨83, some [("b".toList, 2)], none⟩ : Metrics4Channel Nat)]).stats = none :=
  (FetchMetrics_error_is_first_error _).2
    [⟨80, some [("a".toList, 1)], none⟩] ⟨81, none, some (GoError.other "x".toList)⟩
    [⟨82, none, some (GoError.other "y".toList)⟩, ⟨83, some [("b".toList, 2)], none⟩]
    (GoError.other "x".toList) rfl (by simp) rfl

/-- C3, as stated, fails: when the first of two results carries an error,
`FetchMetrics` performs one receive, not two, and the second result stays in
the channel. -/
theorem FetchMetrics_receives_counterexample :
    ¬ (receives [⟨80, none, some (GoError.other "x".toList)⟩,
        (⟨81, some [("a".toList, 1)], none⟩ : Metrics4Channel Nat)] = 2) ∧
    (FetchMetrics [⟨80, none, some (GoError.other "x".toList)⟩,
        (⟨81, some [("a".toList, 1)], none⟩ : Metrics4Channel Nat)]).pending.length = 1 := by
  constructor
  · simp [receives, FetchMetrics, fetchLoop]
  · simp [FetchMetrics, fetchLoop]

/-- C3, amended: `FetchMetrics` receives the results in arrival order up to
and including the first that carries an error and then returns at once. With
`N` results and no error it performs `N` receives and leaves nothing in the
channel; when the first erroring result is preceded by `k` results it performs
`k + 1` receives, and the results after it are left in the channel. -/
theorem FetchMetrics_receives_until_first_error (arrivals : List (Metrics4Channel F)) :
    ((∀ x ∈ arrivals, x.Err = none) →
      receives arrivals = arrivals.length ∧ (FetchMetrics arrivals).pending = []) ∧
    (∀ pre r post e, arrivals = pre ++ r :: post → (∀ x ∈ pre, x.Err = none) →
      r.Err = some e →
      receives arrivals = pre.length + 1 ∧ (FetchMetrics arrivals).pending = post) := by
  constructor
  · intro h
    obtain ⟨m, hm⟩ := fetchLoop_of_no_error arrivals h []
    simp [receives, FetchMetrics, hm]
  · intro pre r post e hl hpre hr
    subst hl
    simp [receives, FetchMetrics, fetchLoop_of_first_error pre r post e hpre hr]
    omega

/-- Witness of the amended C3: three results, the second carries an error. -/
theorem FetchMetrics_receives_until_first_error_witness :
    receives [⟨80, some [("a".toList, 1)], none⟩, ⟨81, none, some (GoError.other "x".toList)⟩,
       (⟨83, some [("b".toList, 2)], none⟩ : Metrics4Channel Nat)] = 1 + 1 ∧
    (FetchMetrics [⟨80, some [("a".toList, 1)], none⟩,
       ⟨81, none, some (GoError.other "x".toList)⟩,
       (⟨83, some [("b".toList, 2)], none⟩ : Metrics4Channel Nat)]).pending
      = [⟨83, some [("b".toList, 2)], none⟩] :=
  (FetchMetrics_receives_until_first_error _).2
    [⟨80, some [("a".toList, 1)], none⟩] ⟨81, none, some (GoError.other "x".toList)⟩
    [⟨83, some [("b".toList, 2)], none⟩] (GoError.other "x".toList) rfl (by simp) rfl

end Aggregation

/-! ## Lines with no colon and lines with several colons -/

section Colons

variable {F : Type} (R : Runtime F)

/-- C17 at the documents `CPULoad` and `Scoreboard`, lines with no colon:
`record[1]` is out of range and each parser panics instead of returning
success or an error, whatever the metric set holds; the worker then posts a
result and ends in the panic. -/
theorem parsers_panic_without_colon (p : GoMap F) (port : Int) :
    (strings.Split "CPULoad".toList ':')[1]? = none ∧
    parseApache2Status R "CPULoad".toList p = Exec.panic ∧
    (strings.Split "Scoreboard".toList ':')[1]? = none ∧
    parseApache2Scoreboard R "Scoreboard".toList p = Exec.panic ∧
    (fetchMetrics4Port R port ("CPULoad".toList, none)).panicked = true := by
  have h1 : parseApache2Status R "CPULoad".toList p = Exec.panic := rfl
  have h2 : parseApache2Status R "CPULoad".toList [] = Exec.panic := rfl
  refine ⟨rfl, h1, rfl, rfl, ?_⟩
  unfold fetchMetrics4Port
  simp only [h2]

theorem mem_of_mem_Trim (s : GoString) (cut c : Char) (h : c ∈ strings.Trim s cut) : c ∈ s := by
  unfold strings.Trim at h
  rw [List.mem_reverse] at h
  have h1 := (List.dropWhile_sublist _).subset h
  rw [List.mem_reverse] at h1
  exact (List.dropWhile_sublist _).subset h1

theorem mem_of_mem_leftSide (s : GoString) (c : Char) (h : c ∈ leftSide s) : c ∈ s :=
  (List.takeWhile_sublist _).subset h

theorem mem_of_mem_rightSide (s : GoString) (c : Char) (h : c ∈ rightSide s) : c ∈ s := by
  unfold rightSide at h
  exact (List.dropWhile_sublist _).subset ((List.drop_sublist _ _).subset h)

theorem colon_not_mem_leftSide (s : GoString) : ':' ∉ leftSide s := by
  intro h
  have := List.mem_takeWhile_imp h
  simp at this

/-- A loop that returns an error met a recognized line with a colon whose
second piece `ParseFloat` rejects. -/
theorem statusLoop_error_line (lines : List GoString) (p p1 : GoMap F) (e : GoError)
    (h : statusLoop R lines p = Exec.ret (p1, some e)) :
    ∃ line ∈ lines, mapGet Params (leftSide line) ≠ none ∧ ':' ∈ line ∧
      ∃ ne, e = GoError.numError ne ∧
        (R.ParseFloat (strings.Trim (secondPiece line) ' ')).2 = some ne := by
  induction lines generalizing p with
  | nil => simp [statusLoop] at h
  | cons line rest ih =>
    rcases line_cases line with hn | ⟨name, hk, hc⟩ | ⟨name, hk, hc⟩
    · rw [statusLoop_skip R line rest p hn] at h
      obtain ⟨l, hl, rest1⟩ := ih p h
      exact ⟨l, List.mem_cons_of_mem _ hl, rest1⟩
    · rw [statusLoop_panic R line rest p name hk hc] at h
      cases h
    · rw [statusLoop_step R line rest p name hk hc] at h
      cases hpf : (R.ParseFloat (strings.Trim (leftSide (rightSide line)) ' ')).2 with
      | some errParse =>
        rw [hpf] at h
        simp only [Exec.ret.injEq, Prod.mk.injEq, Option.some.injEq] at h
        exact ⟨line, List.mem_cons_self _ _, by rw [hk]; simp, hc, errParse, h.2.symm, hpf⟩
      | none =>
        rw [hpf] at h
        obtain ⟨l, hl, rest1⟩ := ih _ h
        exact ⟨l, List.mem_cons_of_mem _ hl, rest1⟩

/-- When every recognized line has a colon, the loop returns the error of
`ParseFloat` as soon as the second piece of a recognized line is rejected. -/
theorem statusLoop_numError_of_piece (lines : List GoString) (p : GoMap F)
    (hcolon : ∀ line ∈ lines, mapGet Params (leftSide line) ≠ none → ':' ∈ line)
    (hbad : ∃ line ∈ lines, mapGet Params (leftSide line) ≠ none ∧
      (R.ParseFloat (strings.Trim (secondPiece line) ' ')).2 ≠ none) :
    ∃ p1 ne, statusLoop R lines p = Exec.ret (p1, some (GoError.numError ne)) := by
  induction lines generalizing p with
  | nil =>
    obtain ⟨l, hl, _⟩ := hbad
    cases hl
  | cons line rest ih =>
    have hrest : ∀ l ∈ rest, mapGet Params (leftSide l) ≠ none → ':' ∈ l :=
      fun l hl => hcolon l (List.mem_cons_of_mem _ hl)
    rcases line_cases line with hn | ⟨name, hkey, hc⟩ | ⟨name, hkey, hc⟩
    · rw [statusLoop_skip R line rest p hn]
      apply ih p hrest
      obtain ⟨l, hl, hne, hb⟩ := hbad
      rcases List.mem_cons.1 hl with rfl | hl1
      · exact absurd hn hne
      · exact ⟨l, hl1, hne, hb⟩
    · exact absurd (hcolon line (List.mem_cons_self _ _) (by rw [hkey]; simp)) hc
    · rw [statusLoop_step R line rest p name hkey hc]
      cases hpf : (R.ParseFloat (strings.Trim (leftSide (rightSide line)) ' ')).2 with
      | some errParse => exact ⟨_, errParse, rfl⟩
      | none =>
        apply ih _ hrest
        obtain ⟨l, hl, hne, hb⟩ := hbad
        rcases List.mem_cons.1 hl with rfl | hl1
        · exact absurd hpf hb
        · exact ⟨l, hl1, hne, hb⟩

/-- The error a call of the status parser returns, when it is a numeric-format
error, is the error its loop returned. -/
theorem statusLoop_of_parse_numError (doc : GoString) (p p1 : GoMap F) (ne : NumError)
    (h : parseApache2Status R doc p = Exec.ret (p1, some (GoError.numError ne))) :
    statusLoop R (linesOf doc) p = Exec.ret (p1, some (GoError.numError ne)) := by
  unfold parseApache2Status at h
  unfold linesOf
  cases hloop : statusLoop R (strings.Split doc '\n') p with
  | panic =>
    rw [hloop] at h
    cases h
  | ret x =>
    obtain ⟨q, oe⟩ := x
    rw [hloop] at h
    cases oe with
    | some e =>
      simp only [Exec.ret.injEq, Prod.mk.injEq] at h
      rw [h.1, h.2]
    | none =>
      by_cases hlen : mapLen q = 0
      · simp [hlen] at h
      · simp [hlen] at h

/-- The first line that contains `Scoreboard`, when it has a colon, ends the
call with the counts of its second piece. -/
theorem scoreboardLoop_first (pre rest : List GoString) (line : GoString) (p : GoMap F)
    (hpre : ∀ l ∈ pre, matchScoreboard l = false) (hline : matchScoreboard line = true)
    (hc : ':' ∈ line) :
    scoreboardLoop R (pre ++ line :: rest) p =
      Exec.ret (countScores R (strings.SplitChars (strings.Trim (secondPiece line) ' ')) p,
        none) := by
  rw [scoreboardLoop_skip_all R pre _ p hpre, scoreboardLoop_hit R line rest p hline,
    Split_get_one_of_mem line hc]
  rfl

/-- C13, as stated, fails: the line `Total Accesses: 1:2` is not a parse
failure, it yields the value read from the text ` 1` between its first and
its second colon. -/
theorem parseApache2Status_second_colon_counterexample :
    parseApache2Status natRuntime "Total Accesses: 1:2".toList []
      = Exec.ret ([("Req.requests".toList, 1)], none) ∧
    strings.Split "Total Accesses: 1:2".toList ':'
      = ["Total Accesses".toList, " 1".toList, "2".toList] ∧
    (natRuntime.ParseFloat (strings.Trim (rightSide "Total Accesses: 1:2".toList) ' ')).2
      ≠ none := by
  decide

/-- C13, amended: the parser splits a line on every colon and reads
`record[1]`, the text between the first and the second colon. When every
recognized line has a colon, the call returns a numeric-format error exactly
when `ParseFloat` rejects the trimmed second piece of some recognized line;
and a call that succeeds leaves under each name the value read from the
second piece of the last line with that name, whatever follows a second
colon. -/
theorem parseApache2Status_reads_second_piece (doc : GoString) (p : GoMap F)
    (hcolon : ∀ line ∈ linesOf doc, mapGet Params (leftSide line) ≠ none → ':' ∈ line) :
    ((∃ p1 ne, parseApache2Status R doc p = Exec.ret (p1, some (GoError.numError ne))) ↔
      ∃ line ∈ linesOf doc, mapGet Params (leftSide line) ≠ none ∧
        (R.ParseFloat (strings.Trim (secondPiece line) ' ')).2 ≠ none) ∧
    (∀ p1, parseApache2Status R doc p = Exec.ret (p1, none) →
      ∀ pre line post name, linesOf doc = pre ++ line :: post →
        mapGet Params (leftSide line) = some name →
        (∀ l ∈ post, mapGet Params (leftSide l) ≠ some name) →
        mapGet p1 name = some (R.ParseFloat (strings.Trim (secondPiece line) ' ')).1) := by
  refine ⟨⟨?_, ?_⟩, ?_⟩
  · rintro ⟨p1, ne, h⟩
    have hloop := statusLoop_of_parse_numError R doc p p1 ne h
    obtain ⟨line, hl, hrec, _, ne1, _, hpf⟩ := statusLoop_error_line R _ _ _ _ hloop
    exact ⟨line, hl, hrec, by rw [hpf]; simp⟩
  · intro hbad
    obtain ⟨p1, ne, hloop⟩ := statusLoop_numError_of_piece R (linesOf doc) p hcolon hbad
    refine ⟨p1, ne, ?_⟩
    unfold parseApache2Status
    unfold linesOf at hloop
    rw [hloop]
  · intro p1 hok pre line post name hsplit hkey hpost
    have hloop := statusLoop_of_parse_ok R doc p p1 hok
    have hmem : line ∈ linesOf doc := by
      rw [hsplit]
      exact List.mem_append_right _ (List.mem_cons_self _ _)
    have hc : ':' ∈ line := hcolon line hmem (by rw [hkey]; simp)
    rw [hsplit] at hloop
    exact statusLoop_last R pre post line p p1 name hloop hkey hc hpost

/-- Witness of the amended C13: `Total Accesses: 1:2` gives no numeric-format
error and the value `1`; `Total Accesses: x:2` gives a numeric-format error. -/
theorem parseApache2Status_reads_second_piece_witness :
    (¬ ∃ line ∈ linesOf "Total Accesses: 1:2".toList,
        mapGet Params (leftSide line) ≠ none ∧
        (natRuntime.ParseFloat (strings.Trim (secondPiece line) ' ')).2 ≠ none) ∧
    (∃ p1 ne, parseApache2Status natRuntime "Total Accesses: x:2".toList []
        = Exec.ret (p1, some (GoError.numError ne))) ∧
    mapGet [("Req.requests".toList, 1)] "Req.requests".toList
      = some (natRuntime.ParseFloat
          (strings.Trim (secondPiece "Total Accesses: 1:2".toList) ' ')).1 :=
  ⟨by decide,
   (parseApache2Status_reads_second_piece natRuntime "Total Accesses: x:2".toList []
      (by decide)).1.2 (by decide),
   (parseApache2Status_reads_second_piece natRuntime "Total Accesses: 1:2".toList []
      (by decide)).2 [("Req.requests".toList, 1)] (by decide) []
      "Total Accesses: 1:2".toList [] "Req.requests".toList (by decide) (by decide)
      (by decide)⟩

/-- C14, as stated, fails: on `Scoreboard: _S:R` the second colon and the `R`
after it increment no bucket; only `_` and `S` are counted. -/
theorem parseApache2Scoreboard_second_colon_counterexample :
    parseApache2Scoreboard natRuntime "Scoreboard: _S:R".toList []
      = Exec.ret ([("Scoreboard.score-S".toList, 1), ("Scoreboard.score-_".toList, 1)], none) ∧
    mapGet [("Scoreboard.score-S".toList, 1), ("Scoreboard.score-_".toList, 1)]
      "Scoreboard.score-:".toList = none ∧
    mapGet [("Scoreboard.score-S".toList, 1), ("Scoreboard.score-_".toList, 1)]
      "Scoreboard.score-R".toList = none := by
  decide

/-- C14, amended: the parser splits the scoreboard line on every colon and
counts, with no validation, every character of the trimmed text between its
first and its second colon (`record[1]`): each such character increments its
own bucket, no other key changes, and a further colon and the characters
after it are not counted. -/
theorem parseApache2Scoreboard_counts_second_piece (doc : GoString) (p : GoMap F)
    (pre post : List GoString) (line : GoString)
    (hsplit : linesOf doc = pre ++ line :: post)
    (hpre : ∀ l ∈ pre, ¬ "Scoreboard".toList <:+: l)
    (hline : "Scoreboard".toList <:+: line)
    (hc : ':' ∈ line) :
    ∃ p1, parseApache2Scoreboard R doc p = Exec.ret (p1, none) ∧
      (∀ c ∈ strings.Trim (secondPiece line) ' ',
        mapGet p1 (scoreName [c]) =
          some (R.addOne^[(strings.Trim (secondPiece line) ' ').count c]
            ((mapGet p (scoreName [c])).getD R.zero))) ∧
      (∀ k, (∀ c ∈ strings.Trim (secondPiece line) ' ', k ≠ scoreName [c]) →
        mapGet p1 k = mapGet p k) ∧
      ':' ∉ strings.Trim (secondPiece line) ' ' ∧
      mapGet p1 (scoreName [':']) = mapGet p (scoreName [':']) := by
  have hpre1 : ∀ l ∈ pre, matchScoreboard l = false :=
    fun l hl => (matchScoreboard_eq_false_iff l).2 (hpre l hl)
  have hline1 : matchScoreboard line = true := (matchScoreboard_iff line).2 hline
  have hno : ':' ∉ strings.Trim (secondPiece line) ' ' :=
    fun h => colon_not_mem_leftSide _ (mem_of_mem_Trim _ _ _ h)
  refine ⟨countScores R (strings.SplitChars (strings.Trim (secondPiece line) ' ')) p,
    ?_, ?_, ?_, hno, ?_⟩
  · unfold parseApache2Scoreboard
    unfold linesOf at hsplit
    rw [hsplit]
    exact scoreboardLoop_first R pre post line p hpre1 hline1 hc
  · intro c hcm
    rw [countScores_get]
    have : (strings.Trim (secondPiece line) ' ').count c ≠ 0 :=
      Nat.pos_iff_ne_zero.1 (List.count_pos_iff.2 hcm)
    simp only [this, if_false]
  · intro k hk
    exact countScores_frame R _ p k hk
  · apply countScores_frame
    intro c hcm heq
    have := scoreName_injective _ _ heq
    simp only [List.cons.injEq, and_true] at this
    rw [← this] at hcm
    exact hno hcm

/-- Witness of the amended C14: the line `Scoreboard: _S:R`. -/
theorem parseApache2Scoreboard_counts_second_piece_witness :
    ∃ p1, parseApache2Scoreboard natRuntime "Scoreboard: _S:R".toList [] = Exec.ret (p1, none) ∧
      (∀ c ∈ strings.Trim (secondPiece "Scoreboard: _S:R".toList) ' ',
        mapGet p1 (scoreName [c]) =
          some (natRuntime.addOne^[(strings.Trim (secondPiece "Scoreboard: _S:R".toList) ' ').count c]
            ((mapGet ([] : GoMap Nat) (scoreName [c])).getD natRuntime.zero))) ∧
      (∀ k, (∀ c ∈ strings.Trim (secondPiece "Scoreboard: _S:R".toList) ' ',
          k ≠ scoreName [c]) →
        mapGet p1 k = mapGet ([] : GoMap Nat) k) ∧
      ':' ∉ strings.Trim (secondPiece "Scoreboard: _S:R".toList) ' ' ∧
      mapGet p1 (scoreName [':']) = mapGet ([] : GoMap Nat) (scoreName [':']) :=
  parseApache2Scoreboard_counts_second_piece natRuntime "Scoreboard: _S:R".toList [] [] []
    "Scoreboard: _S:R".toList (by decide) (by simp) (by decide) (by decide)

end Colons

/-! ## The graph definitions -/

/-- C18 at the symbol `W`: the scoreboard parser emits `Scoreboard.score-W`,
and the entry `apache2.*.Scoreboard` of `graphdef` has no metric named
`score-W`, its fourth metric being named `scpre-W`; the five status names and
the ten other standard symbols are registered. -/
theorem graphdef_misses_score_W :
    parseApache2Scoreboard natRuntime "Scoreboard: W".toList []
      = Exec.ret ([("Scoreboard.score-W".toList, 1)], none) ∧
    registered "Scoreboard.score-W".toList = false ∧
    registered "Scoreboard.scpre-W".toList = true ∧
    (∀ name ∈ statusNames, registered name = true) ∧
    (∀ c ∈ standardSymbols, c ≠ 'W' → registered (scoreName [c]) = true) := by
  decide

/-! ## The keys of the aggregated map -/

section Keys

variable {F : Type} (R : Runtime F)

theorem mapGet_ne_none_of_mem {V : Type} (m : GoMap V) (k : GoString) (v : V)
    (h : (k, v) ∈ m) : mapGet m k ≠ none := by
  intro hnone
  exact (mapGet_eq_none_iff m k).1 hnone (k, v) h rfl

theorem mem_of_mapGet_ne_none {V : Type} (m : GoMap V) (k : GoString)
    (h : mapGet m k ≠ none) : ∃ e ∈ m, e.1 = k := by
  by_contra hno
  apply h
  rw [mapGet_eq_none_iff]
  intro e he hek
  exact hno ⟨e, he, hek⟩

theorem mem_map_snd_of_mapGet {V : Type} (m : GoMap V) (k : GoString) (v : V)
    (h : mapGet m k = some v) : v ∈ m.map Prod.snd := by
  induction m with
  | nil => simp [mapGet] at h
  | cons e rest ih =>
    by_cases he : e.1 = k
    · simp only [mapGet, he, if_true, Option.some.injEq] at h
      rw [List.map_cons, ← h]
      exact List.mem_cons_self _ _
    · simp only [mapGet, he, if_false] at h
      rw [List.map_cons]
      exact List.mem_cons_of_mem _ (ih h)

/-- A key that reads a value after a run of assignments was assigned or read
a value before. -/
theorem mapGet_assignAll_ne_none {V : Type} (upd : List (GoString × V)) (stats : GoMap V)
    (k : GoString) (h : mapGet (assignAll upd stats) k ≠ none) :
    (∃ e ∈ upd, e.1 = k) ∨ mapGet stats k ≠ none := by
  induction upd generalizing stats with
  | nil => exact Or.inr h
  | cons e rest ih =>
    have hstep : assignAll (e :: rest) stats = assignAll rest (mapSet stats e.1 e.2) := rfl
    rw [hstep] at h
    rcases ih _ h with ⟨x, hx, hxk⟩ | h1
    · exact Or.inl ⟨x, List.mem_cons_of_mem _ hx, hxk⟩
    · by_cases he : e.1 = k
      · exact Or.inl ⟨e, List.mem_cons_self _ _, he⟩
      · rw [mapGet_mapSet_ne _ _ _ _ he] at h1
        exact Or.inr h1

/-- The worker posts a metric set only when the fetch and both parsers
succeeded. -/
theorem fetchMetrics4Port_stat (port : Int) (fetched : GoString × Option GoError)
    (s : GoMap F) (h : (fetchMetrics4Port R port fetched).posted.Stat = some s) :
    fetched.2 = none ∧ ∃ st, parseApache2Status R fetched.1 [] = Exec.ret (st, none) ∧
      parseApache2Scoreboard R fetched.1 st = Exec.ret (s, none) := by
  unfold fetchMetrics4Port at h
  cases hf : fetched.2 with
  | some err =>
    rw [hf] at h
    cases h
  | none =>
    refine ⟨rfl, ?_⟩
    simp only [hf] at h
    cases hs : parseApache2Status R fetched.1 [] with
    | panic =>
      rw [hs] at h
      cases h
    | ret x =>
      obtain ⟨st, oe⟩ := x
      cases oe with
      | some err =>
        rw [hs] at h
        cases h
      | none =>
        simp only [hs] at h
        cases hb : parseApache2Scoreboard R fetched.1 st with
        | panic =>
          rw [hb] at h
          cases h
        | ret y =>
          obtain ⟨s1, oe1⟩ := y
          cases oe1 with
          | some err =>
            rw [hb] at h
            cases h
          | none =>
            simp only [hb, Option.some.injEq] at h
            exact ⟨st, rfl, by rw [← h]; exact hb⟩

theorem fetchMetrics4Port_port (port : Int) (fetched : GoString × Option GoError) :
    (fetchMetrics4Port R port fetched).posted.Port = port := by
  unfold fetchMetrics4Port
  cases hf : fetched.2 with
  | some err => rfl
  | none =>
    simp only
    cases hs : parseApache2Status R fetched.1 [] with
    | panic => rfl
    | ret x =>
      obtain ⟨st, oe⟩ := x
      cases oe with
      | some err => rfl
      | none =>
        simp only
        cases hb : parseApache2Scoreboard R fetched.1 st with
        | panic => rfl
        | ret y =>
          obtain ⟨s1, oe1⟩ := y
          cases oe1 <;> rfl

/-- A scoreboard loop that succeeds ended at the first line that contains
`Scoreboard`, which has a colon, with the counts of its second piece. -/
theorem scoreboardLoop_ok_line (lines : List GoString) (p p1 : GoMap F)
    (h : scoreboardLoop R lines p = Exec.ret (p1, none)) :
    ∃ pre line post, lines = pre ++ line :: post ∧
      (∀ l ∈ pre, matchScoreboard l = false) ∧ matchScoreboard line = true ∧ ':' ∈ line ∧
      p1 = countScores R (strings.SplitChars (strings.Trim (secondPiece line) ' ')) p := by
  induction lines with
  | nil => simp [scoreboardLoop] at h
  | cons line rest ih =>
    cases hm : matchScoreboard line with
    | false =>
      rw [scoreboardLoop_skip R line rest p hm] at h
      obtain ⟨pre, l, post, hsplit, hpre, hl, hc, hp1⟩ := ih h
      refine ⟨line :: pre, l, post, by rw [hsplit, List.cons_append], ?_, hl, hc, hp1⟩
      intro x hx
      rcases List.mem_cons.1 hx with rfl | hx1
      · exact hm
      · exact hpre x hx1
    | true =>
      by_cases hc : ':' ∈ line
      · have := scoreboardLoop_first R [] rest line p (by simp) hm hc
        rw [List.nil_append, h] at this
        simp only [Exec.ret.injEq, Prod.mk.injEq, and_true] at this
        exact ⟨[], line, rest, rfl, by simp, hm, hc, this⟩
      · rw [scoreboardLoop_hit R line rest p hm, Split_get_one_of_not_mem line hc] at h
        cases h

/-- The scoreboard line of a document on which the scoreboard parser
succeeds, with what the parser leaves. -/
theorem parseApache2Scoreboard_ok_line (doc : GoString) (p p1 : GoMap F)
    (h : parseApache2Scoreboard R doc p = Exec.ret (p1, none)) :
    ∃ line, IsScoreboardLine doc line ∧ ':' ∈ line ∧
      p1 = countScores R (strings.SplitChars (strings.Trim (secondPiece line) ' ')) p := by
  obtain ⟨pre, line, post, hsplit, hpre, hl, hc, hp1⟩ := scoreboardLoop_ok_line R _ p p1 h
  exact ⟨line, ⟨pre, post, hsplit, fun l hl1 => (matchScoreboard_eq_false_iff l).1 (hpre l hl1),
    (matchScoreboard_iff line).1 hl⟩, hc, hp1⟩

/-- The keys of the metric set a worker posts: the status names and the score
names of the characters of its scoreboard line. -/
theorem fetchMetrics4Port_stat_keys (port : Int) (fetched : GoString × Option GoError)
    (s : GoMap F) (h : (fetchMetrics4Port R port fetched).posted.Stat = some s)
    (name : GoString) (hname : mapGet s name ≠ none) :
    name ∈ statusNames ∨
    ∃ c line, name = scoreName [c] ∧ IsScoreboardLine fetched.1 line ∧ c ∈ line := by
  obtain ⟨_, st, hst, hsb⟩ := fetchMetrics4Port_stat R port fetched s h
  obtain ⟨line, hline, _, hs⟩ := parseApache2Scoreboard_ok_line R fetched.1 st s hsb
  rw [hs] at hname
  rcases countScores_lookup R (strings.Trim (secondPiece line) ' ') st name with
    ⟨c, hc, hkc, _⟩ | ⟨_, hval⟩
  · right
    exact ⟨c, line, hkc, hline,
      mem_of_mem_rightSide _ _ (mem_of_mem_leftSide _ _ (mem_of_mem_Trim _ _ _ hc))⟩
  · left
    rw [hval] at hname
    obtain ⟨key, hkey⟩ := parseApache2Status_keys R fetched.1 st hst name hname
    exact mem_map_snd_of_mapGet Params key name hkey

/-- C11: every key of a map that `FetchMetrics` returns, when the results are
the ones the workers of the configured ports post, is
`apache2.<port>.<Category>.<Name>` with `<port>` the decimal number of a
configured port and `<Category>.<Name>` one of the five status names or
`Scoreboard.score-<c>` for a single character `c` of the scoreboard line of
that port's document. -/
theorem FetchMetrics_key_grammar (workers : List (Int × (GoString × Option GoError)))
    (arrivals : List (Metrics4Channel F)) (m : GoMap F)
    (hperm : arrivals.Perm (postedBy R workers))
    (hres : (FetchMetrics arrivals).stats = some m)
    (k : GoString) (hk : mapGet m k ≠ none) :
    ∃ w ∈ workers, ∃ name, k = metricKey w.1 name ∧
      (name ∈ statusNames ∨
        ∃ c line, name = scoreName [c] ∧ IsScoreboardLine w.2.1 line ∧ c ∈ line) := by
  have hok : ∀ r ∈ arrivals, r.Err = none := by
    rcases first_error_split arrivals with h | ⟨pre, r, post, e, hl, hpre, hr⟩
    · exact h
    · exfalso
      rw [hl] at hres
      simp [FetchMetrics, fetchLoop_of_first_error pre r post e hpre hr] at hres
  have hm : m = assignAll (arrivals.flatMap updatesOf) [] := by
    have := fetchLoop_eq_assignAll arrivals hok []
    unfold FetchMetrics at hres
    rw [this] at hres
    exact (Option.some.inj hres).symm
  rw [hm] at hk
  rcases mapGet_assignAll_ne_none _ _ k hk with ⟨e, he, hek⟩ | h0
  · obtain ⟨r, hr, her⟩ := List.mem_flatMap.1 he
    obtain ⟨s, name, hs, hmem, hkey⟩ := (mem_updatesOf r e.1 e.2).1 her
    have hrw : r ∈ postedBy R workers := hperm.mem_iff.1 hr
    obtain ⟨w, hw, hwr⟩ := List.mem_map.1 hrw
    have hport : r.Port = w.1 := by
      rw [← hwr]
      exact fetchMetrics4Port_port R w.1 w.2
    rw [← hwr] at hs
    refine ⟨w, hw, name, by rw [← hek, hkey, hport], ?_⟩
    exact fetchMetrics4Port_stat_keys R w.1 w.2 s hs name (mapGet_ne_none_of_mem s name e.2 hmem)
  · exact absurd rfl h0

/-- Witness of C11: two ports, the second arriving first. -/
theorem FetchMetrics_key_grammar_witness :
    ∃ w ∈ [((80 : Int), ("BusyWorkers: 3\nScoreboard: _S_".toList, (none : Option GoError))),
        (81, ("IdleWorkers: 7\nScoreboard: W".toList, none))],
      ∃ name, "apache2.81.Scoreboard.score-W".toList = metricKey w.1 name ∧
        (name ∈ statusNames ∨
          ∃ c line, name = scoreName [c] ∧ IsScoreboardLine w.2.1 line ∧ c ∈ line) :=
  FetchMetrics_key_grammar natRuntime
    [(80, ("BusyWorkers: 3\nScoreboard: _S_".toList, none)),
     (81, ("IdleWorkers: 7\nScoreboard: W".toList, none))]
    [(fetchMetrics4Port natRuntime 81 ("IdleWorkers: 7\nScoreboard: W".toList, none)).posted,
     (fetchMetrics4Port natRuntime 80 ("BusyWorkers: 3\nScoreboard: _S_".toList, none)).posted]
    [("apache2.80.Workers.busy_workers".toList, 3), ("apache2.80.Scoreboard.score-S".toList, 1),
     ("apache2.80.Scoreboard.score-_".toList, 2), ("apache2.81.Workers.idle_workers".toList, 7),
     ("apache2.81.Scoreboard.score-W".toList, 1)]
    (List.Perm.swap _ _ _) (by decide) "apache2.81.Scoreboard.score-W".toList (by decide)

end Keys

/-! ## The number of entries of the aggregated map -/

section Cardinality

variable {F : Type} (R : Runtime F)

theorem mapSet_length_of_absent {V : Type} (m : GoMap V) (k : GoString) (v : V)
    (h : mapGet m k = none) : (mapSet m k v).length = m.length + 1 := by
  have hfil : m.filter (fun e => !decide (e.1 = k)) = m := by
    apply List.filter_eq_self.2
    intro e he
    have := (mapGet_eq_none_iff m k).1 h e he
    simp [this]
  simp [mapSet, hfil]

/-- Assignments to pairwise distinct keys that the map does not hold add one
entry each. -/
theorem length_assignAll {V : Type} (upd : List (GoString × V)) (stats : GoMap V)
    (hupd : mapWF upd) (habs : ∀ e ∈ upd, mapGet stats e.1 = none) :
    (assignAll upd stats).length = stats.length + upd.length := by
  induction upd generalizing stats with
  | nil => rfl
  | cons e rest ih =>
    have hwf : mapWF rest := by
      unfold mapWF at *
      exact (List.nodup_cons.1 hupd).2
    have hnot : e.1 ∉ rest.map Prod.fst := by
      unfold mapWF at hupd
      exact (List.nodup_cons.1 hupd).1
    have hstep : assignAll (e :: rest) stats = assignAll rest (mapSet stats e.1 e.2) := rfl
    rw [hstep, ih _ hwf, mapSet_length_of_absent _ _ _ (habs e (List.mem_cons_self _ _))]
    · simp only [List.length_cons]
      omega
    · intro x hx
      have hne : e.1 ≠ x.1 := fun heq => hnot (by rw [heq]; exact List.mem_map.2 ⟨x, hx, rfl⟩)
      rw [mapGet_mapSet_ne _ _ _ _ hne]
      exact habs x (List.mem_cons_of_mem _ hx)

/-- A loop that runs to its end met a colon on every recognized line. -/
theorem statusLoop_ok_colon (lines : List GoString) (p p1 : GoMap F)
    (h : statusLoop R lines p = Exec.ret (p1, none)) :
    ∀ l ∈ lines, mapGet Params (leftSide l) ≠ none → ':' ∈ l := by
  induction lines generalizing p with
  | nil => intro l hl; cases hl
  | cons line rest ih =>
    rcases line_cases line with hn | ⟨name, hk, hc⟩ | ⟨name, hk, hc⟩
    · rw [statusLoop_skip R line rest p hn] at h
      intro l hl hne
      rcases List.mem_cons.1 hl with rfl | hl1
      · exact absurd hn hne
      · exact ih p h l hl1 hne
    · rw [statusLoop_panic R line rest p name hk hc] at h
      cases h
    · rw [statusLoop_step R line rest p name hk hc] at h
      cases hpf : (R.ParseFloat (strings.Trim (leftSide (rightSide line)) ' ')).2 with
      | some errParse =>
        rw [hpf] at h
        simp at h
      | none =>
        rw [hpf] at h
        intro l hl hne
        rcases List.mem_cons.1 hl with rfl | hl1
        · exact hc
        · exact ih _ h l hl1 hne

theorem mem_recognizedKeys (doc key : GoString) :
    key ∈ recognizedKeys doc ↔
      (∃ l ∈ linesOf doc, leftSide l = key) ∧ mapGet Params key ≠ none := by
  unfold recognizedKeys
  rw [List.mem_filter, List.mem_map]
  constructor
  · rintro ⟨h1, h2⟩
    refine ⟨h1, ?_⟩
    intro hn
    rw [hn] at h2
    simp at h2
  · rintro ⟨h1, h2⟩
    refine ⟨h1, ?_⟩
    cases h : mapGet Params key with
    | none => exact absurd h h2
    | some v => rfl

/-- The names a successful status parse holds are the names of the
recognized keys of the document. -/
theorem parseApache2Status_key_iff (doc : GoString) (st : GoMap F)
    (h : parseApache2Status R doc [] = Exec.ret (st, none)) (name : GoString) :
    mapGet st name ≠ none ↔ ∃ key ∈ recognizedKeys doc, mapGet Params key = some name := by
  have hloop := statusLoop_of_parse_ok R doc [] st h
  constructor
  · intro hne
    by_contra hno
    apply hne
    rw [statusLoop_frame R (linesOf doc) [] st name hloop]
    · rfl
    · intro l hl hk
      apply hno
      exact ⟨leftSide l, (mem_recognizedKeys doc _).2 ⟨⟨l, hl, rfl⟩, by rw [hk]; simp⟩, hk⟩
  · rintro ⟨key, hkey, hname⟩
    obtain ⟨⟨l, hl, hleft⟩, _⟩ := (mem_recognizedKeys doc key).1 hkey
    obtain ⟨pre, line, post, hsplit, hline, hpost⟩ :=
      exists_last_split (fun l => mapGet Params (leftSide l) = some name) (linesOf doc)
        ⟨l, hl, by show mapGet Params (leftSide l) = some name; rw [hleft]; exact hname⟩
    have hmem : line ∈ linesOf doc := by
      rw [hsplit]
      exact List.mem_append_right _ (List.mem_cons_self _ _)
    have hc := statusLoop_ok_colon R _ _ _ hloop line hmem (by rw [hline]; simp)
    rw [hsplit] at hloop
    rw [statusLoop_last R pre post line [] st name hloop hline hc hpost]
    simp

theorem countedText_of_line (doc line : GoString) (h : IsScoreboardLine doc line) :
    countedText doc = strings.Trim (secondPiece line) ' ' := by
  obtain ⟨pre, post, hsplit, hpre, hline⟩ := h
  unfold countedText
  have hfind : (linesOf doc).find? matchScoreboard = some line := by
    rw [hsplit, List.find?_append]
    have h1 : pre.find? matchScoreboard = none := by
      rw [List.find?_eq_none]
      intro x hx
      rw [(matchScoreboard_eq_false_iff x).2 (hpre x hx)]
      simp
    rw [h1, List.find?_cons_of_pos _ ((matchScoreboard_iff line).2 hline)]
    rfl
  rw [hfind]

/-- The number of entries of the metric set a worker posts. -/
theorem fetchMetrics4Port_stat_length (port : Int) (doc : GoString) (s : GoMap F)
    (h : (fetchMetrics4Port R port (doc, none)).posted.Stat = some s) :
    mapWF s ∧
    s.length = (recognizedKeys doc).dedup.length + (countedText doc).dedup.length := by
  obtain ⟨_, st, hst, hsb⟩ := fetchMetrics4Port_stat R port (doc, none) s h
  obtain ⟨line, hline, _, hs⟩ := parseApache2Scoreboard_ok_line R doc st s hsb
  have htext := countedText_of_line doc line hline
  rw [← htext] at hs
  have hstwf : mapWF st :=
    statusLoop_mapWF R _ _ _ _ (statusLoop_of_parse_ok R doc [] st hst) mapWF_nil
  have hswf : mapWF s := by
    rw [hs]
    exact countScores_mapWF R _ st hstwf
  refine ⟨hswf, ?_⟩
  let nameOf : GoString → GoString := fun k => (mapGet Params k).getD []
  have hnameOf : ∀ k ∈ (recognizedKeys doc).dedup, mapGet Params k = some (nameOf k) := by
    intro k hk
    have := ((mem_recognizedKeys doc k).1 (List.mem_dedup.1 hk)).2
    cases hp : mapGet Params k with
    | none => exact absurd hp this
    | some v => simp [nameOf, hp]
  have hL1 : ((recognizedKeys doc).dedup.map nameOf).Nodup := by
    apply List.Nodup.map_on _ (List.nodup_dedup _)
    intro x hx y hy hxy
    have h1 := hnameOf x hx
    have h2 := hnameOf y hy
    rw [hxy] at h1
    exact Params_injective x y _ h1 h2
  have hL2 : ((countedText doc).dedup.map (fun c => scoreName [c])).Nodup := by
    apply List.Nodup.map _ (List.nodup_dedup _)
    intro a b hab
    have := scoreName_injective _ _ hab
    simpa using this
  have hL : ((recognizedKeys doc).dedup.map nameOf ++
      (countedText doc).dedup.map (fun c => scoreName [c])).Nodup := by
    refine List.Nodup.append hL1 hL2 ?_
    intro k hk1 hk2
    obtain ⟨key, hkey, hk⟩ := List.mem_map.1 hk1
    obtain ⟨c, _, hc⟩ := List.mem_map.1 hk2
    have := hnameOf key hkey
    rw [hk] at this
    exact Params_name_ne_scoreName key k [c] this hc.symm
  have hmem : ∀ k, k ∈ s.map Prod.fst ↔
      k ∈ (recognizedKeys doc).dedup.map nameOf ++
        (countedText doc).dedup.map (fun c => scoreName [c]) := by
    intro k
    rw [List.mem_append]
    constructor
    · intro hk
      obtain ⟨e, he, hek⟩ := List.mem_map.1 hk
      have hne : mapGet s k ≠ none := by
        rw [← hek]
        exact mapGet_ne_none_of_mem s e.1 e.2 he
      rw [hs] at hne
      rcases countScores_lookup R (countedText doc) st k with ⟨c, hc, hkc, _⟩ | ⟨_, hval⟩
      · right
        exact List.mem_map.2 ⟨c, List.mem_dedup.2 hc, hkc.symm⟩
      · left
        rw [hval] at hne
        obtain ⟨key, hkey, hname⟩ := (parseApache2Status_key_iff R doc st hst k).1 hne
        refine List.mem_map.2 ⟨key, List.mem_dedup.2 hkey, ?_⟩
        have := hnameOf key (List.mem_dedup.2 hkey)
        rw [hname] at this
        exact (Option.some.inj this).symm
    · intro hk
      have hne : mapGet s k ≠ none := by
        rw [hs]
        rcases hk with hk | hk
        · obtain ⟨key, hkey, hkn⟩ := List.mem_map.1 hk
          have hname := hnameOf key hkey
          rw [hkn] at hname
          have hst1 : mapGet st k ≠ none :=
            (parseApache2Status_key_iff R doc st hst k).2 ⟨key, List.mem_dedup.1 hkey, hname⟩
          rcases countScores_lookup R (countedText doc) st k with ⟨c, _, hkc, _⟩ | ⟨_, hval⟩
          · exact absurd hkc (Params_name_ne_scoreName key k [c] hname)
          · rw [hval]
            exact hst1
        · obtain ⟨c, hc, hkc⟩ := List.mem_map.1 hk
          rw [← hkc, countScores_get]
          have : (countedText doc).count c ≠ 0 :=
            Nat.pos_iff_ne_zero.1 (List.count_pos_iff.2 (List.mem_dedup.1 hc))
          simp [this]
      obtain ⟨e, he, hek⟩ := mem_of_mapGet_ne_none s k hne
      exact List.mem_map.2 ⟨e, he, hek⟩
  have hperm := (List.perm_ext_iff_of_nodup hswf hL).2 hmem
  have hlen := hperm.length_eq
  simp only [List.length_map, List.length_append] at hlen
  exact hlen

theorem fetchMetrics4Port_eq_of_stat (port : Int) (fetched : GoString × Option GoError)
    (s : GoMap F) (h : (fetchMetrics4Port R port fetched).posted.Stat = some s) :
    fetchMetrics4Port R port fetched = ⟨⟨port, some s, none⟩, false⟩ := by
  obtain ⟨hf, st, hst, hsb⟩ := fetchMetrics4Port_stat R port fetched s h
  unfold fetchMetrics4Port
  simp only [hf, hst, hsb]

/-- C12: when every worker posts a metric set and the ports are pairwise
distinct, `FetchMetrics` returns a map whose number of entries is the sum,
over the ports, of the number of distinct recognized status keys of the
port's document and the number of distinct characters counted on its
scoreboard line; the key construction is injective. -/
theorem FetchMetrics_cardinality (workers : List (Int × GoString))
    (arrivals : List (Metrics4Channel F))
    (hperm : arrivals.Perm (postedBy R (workers.map (fun w => (w.1, (w.2, none))))))
    (hports : (workers.map Prod.fst).Nodup)
    (hok : ∀ w ∈ workers, (fetchMetrics4Port R w.1 (w.2, none)).posted.Stat ≠ none) :
    (∃ m, (FetchMetrics arrivals).stats = some m ∧ (FetchMetrics arrivals).err = none ∧
      mapWF m ∧
      mapLen m = (workers.map (fun w =>
        (recognizedKeys w.2).dedup.length + (countedText w.2).dedup.length)).sum) ∧
    (∀ p q n1 n2, metricKey p n1 = metricKey q n2 → p = q ∧ n1 = n2) := by
  refine ⟨?_, metricKey_injective⟩
  have hP : postedBy R (workers.map (fun w => (w.1, (w.2, (none : Option GoError)))))
      = workers.map (fun w => (fetchMetrics4Port R w.1 (w.2, none)).posted) := by
    simp [postedBy, List.map_map, Function.comp_def]
  rw [hP] at hperm
  have hstat : ∀ w ∈ workers, ∃ s, fetchMetrics4Port R w.1 (w.2, none)
      = ⟨⟨w.1, some s, none⟩, false⟩ := by
    intro w hw
    cases hs : (fetchMetrics4Port R w.1 (w.2, none)).posted.Stat with
    | none => exact absurd hs (hok w hw)
    | some s => exact ⟨s, fetchMetrics4Port_eq_of_stat R w.1 (w.2, none) s hs⟩
  have hfrom : ∀ r ∈ arrivals, ∃ w ∈ workers,
      r = (fetchMetrics4Port R w.1 (w.2, none)).posted := by
    intro r hr
    obtain ⟨w, hw, hwr⟩ := List.mem_map.1 (hperm.mem_iff.1 hr)
    exact ⟨w, hw, hwr.symm⟩
  have hokA : ∀ r ∈ arrivals, r.Err = none := by
    intro r hr
    obtain ⟨w, hw, hwr⟩ := hfrom r hr
    obtain ⟨s, hs⟩ := hstat w hw
    rw [hwr, hs]
  have hwfA : ∀ r ∈ arrivals, ∀ s, r.Stat = some s → mapWF s := by
    intro r hr s hs
    obtain ⟨w, hw, hwr⟩ := hfrom r hr
    rw [hwr] at hs
    exact (fetchMetrics4Port_stat_length R w.1 w.2 s hs).1
  have hportsA : (arrivals.map (fun r => r.Port)).Nodup := by
    rw [(hperm.map _).nodup_iff, List.map_map]
    have : ((fun r : Metrics4Channel F => r.Port) ∘
        fun w : Int × GoString => (fetchMetrics4Port R w.1 (w.2, none)).posted) = Prod.fst := by
      funext w
      exact fetchMetrics4Port_port R w.1 (w.2, none)
    rw [this]
    exact hports
  have hU := mapWF_flatMap_updatesOf arrivals hportsA hwfA
  refine ⟨assignAll (arrivals.flatMap updatesOf) [], ?_, ?_, mapWF_assignAll _ _ mapWF_nil, ?_⟩
  · unfold FetchMetrics
    rw [fetchLoop_eq_assignAll arrivals hokA []]
  · unfold FetchMetrics
    rw [fetchLoop_eq_assignAll arrivals hokA []]
  · unfold mapLen
    rw [length_assignAll _ ([] : GoMap F) hU (fun _ _ => rfl), List.length_nil, Nat.zero_add,
      List.length_flatMap, (hperm.map _).sum_eq, List.map_map]
    congr 1
    apply List.map_congr_left
    intro w hw
    obtain ⟨s, hs⟩ := hstat w hw
    have hs1 : (fetchMetrics4Port R w.1 (w.2, none)).posted.Stat = some s := by rw [hs]
    have hlen := (fetchMetrics4Port_stat_length R w.1 w.2 s hs1).2
    simp only [Function.comp_apply, updatesOf, hs1, Option.getD_some, List.length_map]
    exact hlen

/-- Witness of C12: two ports; the first document has two recognized keys,
one of them twice, and three counted characters of which two are distinct. -/
theorem FetchMetrics_cardinality_witness :
    (∃ m, (FetchMetrics
        [(fetchMetrics4Port natRuntime 81 ("IdleWorkers: 7\nScoreboard: W".toList, none)).posted,
         (fetchMetrics4Port natRuntime 80
          ("BusyWorkers: 3\nCPULoad: 1\nBusyWorkers: 4\nScoreboard: _S_".toList, none)).posted]).stats
        = some m ∧
      (FetchMetrics
        [(fetchMetrics4Port natRuntime 81 ("IdleWorkers: 7\nScoreboard: W".toList, none)).posted,
         (fetchMetrics4Port natRuntime 80
          ("BusyWorkers: 3\nCPULoad: 1\nBusyWorkers: 4\nScoreboard: _S_".toList, none)).posted]).err
        = none ∧
      mapWF m ∧
      mapLen m = ([((80 : Int), "BusyWorkers: 3\nCPULoad: 1\nBusyWorkers: 4\nScoreboard: _S_".toList),
          (81, "IdleWorkers: 7\nScoreboard: W".toList)].map (fun w =>
        (recognizedKeys w.2).dedup.length + (countedText w.2).dedup.length)).sum) ∧
    (∀ p q n1 n2, metricKey p n1 = metricKey q n2 → p = q ∧ n1 = n2) :=
  FetchMetrics_cardinality natRuntime
    [(80, "BusyWorkers: 3\nCPULoad: 1\nBusyWorkers: 4\nScoreboard: _S_".toList),
     (81, "IdleWorkers: 7\nScoreboard: W".toList)]
    [(fetchMetrics4Port natRuntime 81 ("IdleWorkers: 7\nScoreboard: W".toList, none)).posted,
     (fetchMetrics4Port natRuntime 80
      ("BusyWorkers: 3\nCPULoad: 1\nBusyWorkers: 4\nScoreboard: _S_".toList, none)).posted]
    (List.Perm.swap _ _ _) (by decide) (by decide)

end Cardinality

/-! ## The scores as counts of worker slots -/

section Slots

variable {F : Type} (R : Runtime F)

/-- C20: when `parseApache2Scoreboard` succeeds from a metric set with no
`Scoreboard.score-*` key, the `Scoreboard.score-*` entries afterwards are
exactly one per distinct character `c` of the space-trimmed scoreboard text,
with the value `0.0` incremented by `1.0` as many times as `c` occurs, a
whole number of at least 1; these numbers sum to the number of characters of
that text; and when the text is empty no `Scoreboard.score-*` key exists. The
text is the trimmed `record[1]` of the scoreboard line, all the text after
the colon when the line has one colon. -/
theorem parseApache2Scoreboard_scores (doc : GoString) (p p1 : GoMap F)
    (hp : ∀ sb, mapGet p (scoreName sb) = none)
    (hok : parseApache2Scoreboard R doc p = Exec.ret (p1, none)) :
    (∀ sb v, mapGet p1 (scoreName sb) = some v ↔
      ∃ c ∈ countedText doc, sb = [c] ∧ v = R.addOne^[(countedText doc).count c] R.zero) ∧
    (∀ c ∈ countedText doc, 1 ≤ (countedText doc).count c) ∧
    ((countedText doc).dedup.map (fun c => (countedText doc).count c)).sum
      = (countedText doc).length ∧
    (countedText doc = [] → ∀ sb, mapGet p1 (scoreName sb) = none) ∧
    (∃ line, IsScoreboardLine doc line ∧
      countedText doc = strings.Trim (secondPiece line) ' ' ∧
      (line.count ':' = 1 → countedText doc = strings.Trim (rightSide line) ' ')) := by
  obtain ⟨line, hline, _, hp1⟩ := parseApache2Scoreboard_ok_line R doc p p1 hok
  have htext := countedText_of_line doc line hline
  rw [← htext] at hp1
  have hiff : ∀ sb v, mapGet p1 (scoreName sb) = some v ↔
      ∃ c ∈ countedText doc, sb = [c] ∧ v = R.addOne^[(countedText doc).count c] R.zero := by
    intro sb v
    constructor
    · intro hv
      rw [hp1] at hv
      rcases countScores_lookup R (countedText doc) p (scoreName sb) with
        ⟨c, hc, hkc, hval⟩ | ⟨_, hval⟩
      · rw [hval, hp sb] at hv
        refine ⟨c, hc, scoreName_injective _ _ hkc, ?_⟩
        simp only [Option.getD_none, Option.some.injEq] at hv
        exact hv.symm
      · rw [hval, hp sb] at hv
        cases hv
    · rintro ⟨c, hc, hsb, hv⟩
      rw [hp1, hsb, countScores_get, hp [c], hv]
      have : (countedText doc).count c ≠ 0 :=
        Nat.pos_iff_ne_zero.1 (List.count_pos_iff.2 hc)
      simp [this]
  refine ⟨hiff, fun c hc => List.count_pos_iff.2 hc,
    List.sum_map_count_dedup_eq_length _, ?_, line, hline, htext, ?_⟩
  · intro hnil sb
    cases hv : mapGet p1 (scoreName sb) with
    | none => rfl
    | some v =>
      obtain ⟨c, hc, _⟩ := (hiff sb v).1 hv
      rw [hnil] at hc
      cases hc
  · intro hcount
    rw [htext]
    unfold secondPiece
    rw [leftSide_rightSide_of_count line hcount]

/-- Witness of C20: `Scoreboard: _S_`, three slots. -/
theorem parseApache2Scoreboard_scores_witness :
    (∀ sb v,
      mapGet [("Scoreboard.score-_".toList, 2), ("Scoreboard.score-S".toList, 1)]
        (scoreName sb) = some v ↔
      ∃ c ∈ countedText "Scoreboard: _S_".toList, sb = [c] ∧
        v = natRuntime.addOne^[(countedText "Scoreboard: _S_".toList).count c]
          natRuntime.zero) ∧
    (∀ c ∈ countedText "Scoreboard: _S_".toList,
      1 ≤ (countedText "Scoreboard: _S_".toList).count c) ∧
    ((countedText "Scoreboard: _S_".toList).dedup.map
      (fun c => (countedText "Scoreboard: _S_".toList).count c)).sum
      = (countedText "Scoreboard: _S_".toList).length ∧
    (countedText "Scoreboard: _S_".toList = [] →
      ∀ sb, mapGet [("Scoreboard.score-_".toList, 2), ("Scoreboard.score-S".toList, 1)]
        (scoreName sb) = (none : Option Nat)) ∧
    (∃ line, IsScoreboardLine "Scoreboard: _S_".toList line ∧
      countedText "Scoreboard: _S_".toList = strings.Trim (secondPiece line) ' ' ∧
      (line.count ':' = 1 →
        countedText "Scoreboard: _S_".toList = strings.Trim (rightSide line) ' ')) :=
  parseApache2Scoreboard_scores natRuntime "Scoreboard: _S_".toList []
    [("Scoreboard.score-_".toList, 2), ("Scoreboard.score-S".toList, 1)]
    (fun _ => rfl) (by decide)

end Slots

/-! ## The endpoint fetcher -/

section Fetcher

theorem upper_cases (c : Char) (h : c.isUpper = true) :
    c ∈ "ABCDEFGHIJKLMNOPQRSTUVWXYZ".toList := by
  have hc : c = Char.ofNat c.toNat := (Char.ofNat_toNat c).symm
  have h1 : 65 ≤ c.toNat ∧ c.toNat ≤ 90 := by
    simp only [Char.isUpper, Bool.and_eq_true, decide_eq_true_eq] at h
    exact ⟨h.1, h.2⟩
  obtain ⟨h2, h3⟩ := h1
  generalize c.toNat = n at hc h2 h3
  subst hc
  interval_cases n <;> decide

theorem lower_cases (c : Char) (h : c.isLower = true) :
    c ∈ "abcdefghijklmnopqrstuvwxyz".toList := by
  have hc : c = Char.ofNat c.toNat := (Char.ofNat_toNat c).symm
  have h1 : 97 ≤ c.toNat ∧ c.toNat ≤ 122 := by
    simp only [Char.isLower, Bool.and_eq_true, decide_eq_true_eq] at h
    exact ⟨h.1, h.2⟩
  obtain ⟨h2, h3⟩ := h1
  generalize c.toNat = n at hc h2 h3
  subst hc
  interval_cases n <;> decide

theorem toLower_of_not_upper (c : Char) (h : c.isUpper = false) : c.toLower = c := by
  unfold Char.toLower
  simp only [Char.isUpper, Bool.and_eq_false_iff, decide_eq_false_iff_not] at h
  have : ¬ (c.toNat ≥ 65 ∧ c.toNat ≤ 90) := by
    rintro ⟨a, b⟩
    rcases h with h | h
    · exact h a
    · exact h b
  simp [this]

theorem toUpper_of_not_lower (c : Char) (h : c.isLower = false) : c.toUpper = c := by
  unfold Char.toUpper
  simp only [Char.isLower, Bool.and_eq_false_iff, decide_eq_false_iff_not] at h
  have : ¬ (c.toNat ≥ 97 ∧ c.toNat ≤ 122) := by
    rintro ⟨a, b⟩
    rcases h with h | h
    · exact h a
    · exact h b
  simp [this]

theorem canonChar_true (c : Char) : canonChar true c = c.toUpper := by
  unfold canonChar
  cases h : c.isLower with
  | true => simp
  | false => simp [toUpper_of_not_lower c h]

theorem canonChar_false (c : Char) : canonChar false c = c.toLower := by
  unfold canonChar
  cases h : c.isUpper with
  | true => simp
  | false => simp [toLower_of_not_upper c h]

/-- A character whose lower case is `x` is `x` or an upper-case letter. -/
theorem toLower_eq_cases (c x : Char) (h : c.toLower = x) :
    c = x ∨ (c ∈ "ABCDEFGHIJKLMNOPQRSTUVWXYZ".toList ∧ c.toLower = x) := by
  cases hu : c.isUpper with
  | true => exact Or.inr ⟨upper_cases c hu, h⟩
  | false =>
    rw [toLower_of_not_upper c hu] at h
    exact Or.inl h

theorem toUpper_eq_cases (c x : Char) (h : c.toUpper = x) :
    c = x ∨ (c ∈ "abcdefghijklmnopqrstuvwxyz".toList ∧ c.toUpper = x) := by
  cases hu : c.isLower with
  | true => exact Or.inr ⟨lower_cases c hu, h⟩
  | false =>
    rw [toUpper_of_not_lower c hu] at h
    exact Or.inl h

theorem toLower_eq_h (c : Char) (h : c.toLower = 'h') : c = 'h' ∨ c = 'H' := by
  rcases toLower_eq_cases c 'h' h with h1 | ⟨hm, h2⟩
  · exact Or.inl h1
  · have key : ∀ u ∈ "ABCDEFGHIJKLMNOPQRSTUVWXYZ".toList, u.toLower = 'h' → u = 'H' := by
      decide
    exact Or.inr (key c hm h2)

theorem toLower_eq_o (c : Char) (h : c.toLower = 'o') : c = 'o' ∨ c = 'O' := by
  rcases toLower_eq_cases c 'o' h with h1 | ⟨hm, h2⟩
  · exact Or.inl h1
  · have key : ∀ u ∈ "ABCDEFGHIJKLMNOPQRSTUVWXYZ".toList, u.toLower = 'o' → u = 'O' := by
      decide
    exact Or.inr (key c hm h2)

theorem toLower_eq_s (c : Char) (h : c.toLower = 's') : c = 's' ∨ c = 'S' := by
  rcases toLower_eq_cases c 's' h with h1 | ⟨hm, h2⟩
  · exact Or.inl h1
  · have key : ∀ u ∈ "ABCDEFGHIJKLMNOPQRSTUVWXYZ".toList, u.toLower = 's' → u = 'S' := by
      decide
    exact Or.inr (key c hm h2)

theorem toLower_eq_t (c : Char) (h : c.toLower = 't') : c = 't' ∨ c = 'T' := by
  rcases toLower_eq_cases c 't' h with h1 | ⟨hm, h2⟩
  · exact Or.inl h1
  · have key : ∀ u ∈ "ABCDEFGHIJKLMNOPQRSTUVWXYZ".toList, u.toLower = 't' → u = 'T' := by
      decide
    exact Or.inr (key c hm h2)

theorem toUpper_eq_H (c : Char) (h : c.toUpper = 'H') : c = 'h' ∨ c = 'H' := by
  rcases toUpper_eq_cases c 'H' h with h1 | ⟨hm, h2⟩
  · exact Or.inr h1
  · have key : ∀ u ∈ "abcdefghijklmnopqrstuvwxyz".toList, u.toUpper = 'H' → u = 'h' := by
      decide
    exact Or.inl (key c hm h2)

/-- A key has the canonical form `Host` exactly when it equals `Host`
ignoring the case of its letters. -/
theorem CanonicalHeaderKey_eq_Host_iff (k : GoString) :
    CanonicalHeaderKey k = "Host".toList ↔ equalsHostIgnoringCase k := by
  unfold equalsHostIgnoringCase
  have four : ∀ a b c d : Char, (a = 'h' ∨ a = 'H') → (b = 'o' ∨ b = 'O') →
      (c = 's' ∨ c = 'S') → (d = 't' ∨ d = 'T') →
      CanonicalHeaderKey [a, b, c, d] = "Host".toList ∧
      [a, b, c, d].map Char.toLower = "host".toList := by
    intro a b c d ha hb hc hd
    rcases ha with rfl | rfl <;> rcases hb with rfl | rfl <;> rcases hc with rfl | rfl <;>
      rcases hd with rfl | rfl <;> decide
  constructor
  · intro h
    unfold CanonicalHeaderKey at h
    by_cases hall : k.all validHeaderFieldByte = true
    · rw [if_pos hall] at h
      rcases k with _ | ⟨a, _ | ⟨b, _ | ⟨c, _ | ⟨d, _ | ⟨e, r⟩⟩⟩⟩⟩
      · cases h
      · simp [canonicalMIMEHeaderKey] at h
      · simp [canonicalMIMEHeaderKey] at h
      · simp [canonicalMIMEHeaderKey] at h
      · simp only [canonicalMIMEHeaderKey, canonChar_true] at h
        have h1 : a.toUpper = 'H' := by
          injection h
        rw [h1] at h
        have hd1 : decide (('H' : Char) = '-') = false := by decide
        simp only [hd1, canonChar_false] at h
        have h2 : b.toLower = 'o' := by
          injection h with _ h
          injection h
        rw [h2] at h
        have hd2 : decide (('o' : Char) = '-') = false := by decide
        simp only [hd2, canonChar_false] at h
        have h3 : c.toLower = 's' := by
          injection h with _ h
          injection h with _ h
          injection h
        rw [h3] at h
        have hd3 : decide (('s' : Char) = '-') = false := by decide
        simp only [hd3, canonChar_false] at h
        have h4 : d.toLower = 't' := by
          injection h with _ h
          injection h with _ h
          injection h with _ h
          injection h
        exact (four a b c d (toUpper_eq_H a h1) (toLower_eq_o b h2) (toLower_eq_s c h3)
          (toLower_eq_t d h4)).2
      · have := congrArg List.length h
        simp [canonicalMIMEHeaderKey] at this
    · rw [if_neg hall] at h
      rw [h]
      decide
  · intro h
    rcases k with _ | ⟨a, _ | ⟨b, _ | ⟨c, _ | ⟨d, _ | ⟨e, r⟩⟩⟩⟩⟩
    · cases h
    · have := congrArg List.length h
      simp at this
    · have := congrArg List.length h
      simp at this
    · have := congrArg List.length h
      simp at this
    · simp only [List.map_cons, List.map_nil] at h
      have h1 : a.toLower = 'h' := by
        injection h
      have h2 : b.toLower = 'o' := by
        injection h with _ h
        injection h
      have h3 : c.toLower = 's' := by
        injection h with _ h
        injection h with _ h
        injection h
      have h4 : d.toLower = 't' := by
        injection h with _ h
        injection h with _ h
        injection h with _ h
        injection h
      exact (four a b c d (toLower_eq_h a h1) (toLower_eq_o b h2) (toLower_eq_s c h3)
        (toLower_eq_t d h4)).1
    · have := congrArg List.length h
      simp at this

theorem SplitN2_eq (h : GoString) :
    strings.SplitN2 h ':' = if ':' ∈ h then [leftSide h, rightSide h] else [h] := by
  unfold strings.SplitN2 leftSide rightSide
  rfl

theorem SplitN2_head (h : GoString) : (strings.SplitN2 h ':').headD [] = leftSide h := by
  rw [SplitN2_eq]
  by_cases hc : ':' ∈ h
  · simp [hc]
  · simp only [hc, if_false, List.headD_cons]
    unfold leftSide
    rw [takeWhile_ne_eq_self h ':' hc]

theorem applyHeader_eq (req : Request) (h : GoString) :
    applyHeader req h =
      if CanonicalHeaderKey (headerKey h) = "Host".toList then
        { req with Host := headerValue h }
      else
        { req with
          Header := (mapSet req.Header (CanonicalHeaderKey (headerKey h)) [headerValue h]) } := by
  have hv : (if (strings.SplitN2 h ':').length = 2 then
      strings.TrimSpace ((strings.SplitN2 h ':').getD 1 []) else []) = headerValue h := by
    rw [SplitN2_eq]
    unfold headerValue
    by_cases hc : ':' ∈ h
    · simp [hc]
    · simp [hc]
  unfold applyHeader
  simp only [SplitN2_head, hv]
  rfl

/-- C15: a header string is cut at its first colon only into a key and a
value, the value keeping any further colon and being empty when the string
has no colon, and both are trimmed of surrounding whitespace; when the key
equals `Host` ignoring letter case the value becomes the `Host` of the request
and no header is set, otherwise the header of that key (in canonical form, as
`Header.Set` stores it) is set to the value and `Host` is left as it was. -/
theorem applyHeader_host_or_header (req : Request) (h : GoString) :
    strings.SplitN2 h ':' = (if ':' ∈ h then [leftSide h, rightSide h] else [h]) ∧
    (equalsHostIgnoringCase (headerKey h) →
      applyHeader req h = { req with Host := headerValue h }) ∧
    (¬ equalsHostIgnoringCase (headerKey h) →
      applyHeader req h =
        { req with
          Header := (mapSet req.Header (CanonicalHeaderKey (headerKey h)) [headerValue h]) }) ∧
    (':' ∈ h → headerValue h = strings.TrimSpace (rightSide h)) ∧
    (':' ∉ h → headerValue h = []) := by
  refine ⟨SplitN2_eq h, ?_, ?_, ?_, ?_⟩
  · intro hk
    rw [applyHeader_eq, if_pos ((CanonicalHeaderKey_eq_Host_iff _).2 hk)]
  · intro hk
    rw [applyHeader_eq, if_neg (fun hc => hk ((CanonicalHeaderKey_eq_Host_iff _).1 hc))]
  · intro hc
    simp [headerValue, hc]
  · intro hc
    simp [headerValue, hc]

/-- Witness of C15: `hOsT` sets the host to a value with a colon, and
`x-forwarded-for` sets a header. -/
theorem applyHeader_host_or_header_witness :
    applyHeader ⟨[], "a".toList, []⟩ " hOsT : example.com:8080 ".toList
      = ({ (⟨[], "a".toList, []⟩ : Request) with
            Host := headerValue " hOsT : example.com:8080 ".toList }) ∧
    headerValue " hOsT : example.com:8080 ".toList = "example.com:8080".toList ∧
    applyHeader ⟨[], "a".toList, []⟩ "x-forwarded-for: 1.2.3.4".toList
      = ({ (⟨[], "a".toList, []⟩ : Request) with
            Header := (mapSet [] (CanonicalHeaderKey (headerKey "x-forwarded-for: 1.2.3.4".toList))
              [headerValue "x-forwarded-for: 1.2.3.4".toList]) }) ∧
    equalsHostIgnoringCase "host".toList ∧ equalsHostIgnoringCase "HOST".toList ∧
    equalsHostIgnoringCase "hOsT".toList :=
  ⟨(applyHeader_host_or_header ⟨[], "a".toList, []⟩ " hOsT : example.com:8080 ".toList).2.1
      (by decide),
   by decide,
   (applyHeader_host_or_header ⟨[], "a".toList, []⟩ "x-forwarded-for: 1.2.3.4".toList).2.2.1
      (by decide),
   by decide, by decide, by decide⟩

/-- C16: given the response to the request, `getApache2Metrics` returns the
body as text only when the status is 200; for every other status code it
returns an empty text and the error `HTTP status error: <code>`, the code in
decimal, which the worker of port `P` posts as
`Failed at port=P: HTTP status error: <code>`. -/
theorem getApache2Metrics_status {F : Type} (R : Runtime F) (H : HTTP) (host : GoString)
    (port : Int) (path : GoString) (header : List GoString) (req0 : Request)
    (resp : Response)
    (hnew : H.NewRequest (statusURL host port path) = (req0, none))
    (hdo : H.Do (header.foldl applyHeader req0) = (resp, none)) :
    (resp.StatusCode ≠ 200 →
      getApache2Metrics H host port path header =
        ([], some (GoError.errorString
          ("HTTP status error: ".toList ++ formatInt resp.StatusCode))) ∧
      (fetchMetrics4Port R port (getApache2Metrics H host port path header)).posted =
        ⟨port, none, some (GoError.errorString
          ("Failed at port=".toList ++ formatInt port ++ ": ".toList ++
            ("HTTP status error: ".toList ++ formatInt resp.StatusCode)))⟩) ∧
    (resp.StatusCode = 200 → ∀ body, resp.Body = (body, none) →
      getApache2Metrics H host port path header = (body, none)) ∧
    (resp.StatusCode = 200 → ∀ body err, resp.Body = (body, some err) →
      getApache2Metrics H host port path header = ([], some err)) ∧
    (∀ data, getApache2Metrics H host port path header = (data, none) →
      resp.StatusCode = 200 ∧ resp.Body = (data, none)) := by
  have hnew1 : H.NewRequest ("http://".toList ++ host ++ ":".toList ++ formatUint64 port ++ path)
      = (req0, none) := hnew
  have hbad : resp.StatusCode ≠ 200 →
      getApache2Metrics H host port path header =
        ([], some (GoError.errorString
          ("HTTP status error: ".toList ++ formatInt resp.StatusCode))) := by
    intro hcode
    unfold getApache2Metrics
    simp only [hnew1, hdo]
    rw [if_pos hcode]
  have hgood : resp.StatusCode = 200 →
      getApache2Metrics H host port path header =
        (match resp.Body with
         | (_, some err) => ([], some err)
         | (body, none) => (body, none)) := by
    intro hcode
    unfold getApache2Metrics
    simp only [hnew1, hdo]
    rw [if_neg (fun hne => hne hcode)]
  refine ⟨?_, ?_, ?_, ?_⟩
  · intro hcode
    refine ⟨hbad hcode, ?_⟩
    rw [hbad hcode]
    rfl
  · intro hcode body hbody
    rw [hgood hcode, hbody]
  · intro hcode body err hbody
    rw [hgood hcode, hbody]
  · intro data hdata
    by_cases hcode : resp.StatusCode = 200
    · refine ⟨hcode, ?_⟩
      rw [hgood hcode] at hdata
      rcases hb : resp.Body with ⟨b, oe⟩
      rw [hb] at hdata
      cases oe with
      | some err =>
        simp only [Prod.mk.injEq] at hdata
        cases hdata.2
      | none =>
        simp only [Prod.mk.injEq, and_true] at hdata
        rw [hdata]
    · exfalso
      rw [hbad hcode] at hdata
      simp only [Prod.mk.injEq] at hdata
      cases hdata.2

/-- Witness of C16: port 8080 answers 500. -/
theorem getApache2Metrics_status_witness :
    getApache2Metrics (constHTTP 500 "oops".toList) "localhost".toList 8080
        "/server-status?auto".toList [] =
      ([], some (GoError.errorString "HTTP status error: 500".toList)) ∧
    (fetchMetrics4Port natRuntime 8080
        (getApache2Metrics (constHTTP 500 "oops".toList) "localhost".toList 8080
          "/server-status?auto".toList [])).posted =
      ⟨8080, none,
        some (GoError.errorString "Failed at port=8080: HTTP status error: 500".toList)⟩ :=
  (getApache2Metrics_status natRuntime (constHTTP 500 "oops".toList) "localhost".toList 8080
    "/server-status?auto".toList []
    ⟨"http://localhost:8080/server-status?auto".toList, [], []⟩
    ⟨500, ("oops".toList, none)⟩ (by decide) rfl).1 (by decide)

end Fetcher

/-! ## Trimming before the numeric parse -/

section Trimming

variable {F : Type} (R : Runtime F)

theorem dropWhile_pad (pad t : GoString) (hpad : ∀ c ∈ pad, c = ' ') :
    (pad ++ t).dropWhile (fun c => decide (c = ' ')) = t.dropWhile (fun c => decide (c = ' ')) := by
  induction pad with
  | nil => rfl
  | cons a as ih =>
    have ha : a = ' ' := hpad a (List.mem_cons_self _ _)
    rw [List.cons_append, List.dropWhile_cons_of_pos (by simp [ha])]
    exact ih (fun c hc => hpad c (List.mem_cons_of_mem _ hc))

theorem dropWhile_of_head (t : GoString) (h : t.head? ≠ some ' ') :
    t.dropWhile (fun c => decide (c = ' ')) = t := by
  cases t with
  | nil => rfl
  | cons a as =>
    have ha : a ≠ ' ' := fun heq => h (by simp [heq])
    rw [List.dropWhile_cons_of_neg (by simp [ha])]

theorem dropWhile_all_spaces (pad : GoString) (hpad : ∀ c ∈ pad, c = ' ') :
    pad.dropWhile (fun c => decide (c = ' ')) = [] := by
  have := dropWhile_pad pad [] hpad
  rw [List.append_nil] at this
  rw [this]
  rfl

/-- The call `strings.Trim(s, " ")` removes the spaces around a text that
neither begins nor ends with a space, and nothing else. -/
theorem Trim_pad (pad1 s pad2 : GoString) (h1 : ∀ c ∈ pad1, c = ' ')
    (h2 : ∀ c ∈ pad2, c = ' ') (hhead : s.head? ≠ some ' ') (hlast : s.getLast? ≠ some ' ') :
    strings.Trim (pad1 ++ s ++ pad2) ' ' = s := by
  unfold strings.Trim
  rw [List.append_assoc, dropWhile_pad pad1 _ h1]
  cases s with
  | nil =>
    rw [List.nil_append, dropWhile_all_spaces pad2 h2]
    rfl
  | cons a as =>
    rw [dropWhile_of_head ((a :: as) ++ pad2) (by simpa using hhead), List.reverse_append,
      dropWhile_pad pad2.reverse _ (fun c hc => h2 c (List.mem_reverse.1 hc)),
      dropWhile_of_head _ (by rw [List.head?_reverse]; exact hlast), List.reverse_reverse]

theorem digit_cases (c : Char) (h : c.isDigit = true) : c ∈ "0123456789".toList := by
  have hc : c = Char.ofNat c.toNat := (Char.ofNat_toNat c).symm
  have h1 : 48 ≤ c.toNat ∧ c.toNat ≤ 57 := by
    simp only [Char.isDigit, Bool.and_eq_true, decide_eq_true_eq] at h
    exact ⟨h.1, h.2⟩
  obtain ⟨h2, h3⟩ := h1
  generalize c.toNat = n at hc h2 h3
  subst hc
  interval_cases n <;> decide

theorem isOtherSpace_not_digit (c : Char) (h : isOtherSpace c = true) : c.isDigit = false := by
  cases hd : c.isDigit with
  | false => rfl
  | true =>
    have key : ∀ d ∈ "0123456789".toList, isOtherSpace d = false := by decide
    rw [key c (digit_cases c hd)] at h
    cases h

theorem readStep_fold_none (cs : GoString) :
    cs.foldl readStep (none : Option Nat) = none := by
  induction cs with
  | nil => rfl
  | cons a as ih => exact ih

theorem readStep_fold_digits (cs : GoString) (n m : Nat)
    (h : cs.foldl readStep (some n) = some m) : ∀ c ∈ cs, c.isDigit = true := by
  induction cs generalizing n with
  | nil => intro c hc; cases hc
  | cons a as ih =>
    rw [List.foldl_cons] at h
    cases ha : a.isDigit with
    | false =>
      have hstep : readStep (some n) a = none := by simp [readStep, ha]
      rw [hstep, readStep_fold_none] at h
      cases h
    | true =>
      have hstep : readStep (some n) a = some (10 * n + (a.toNat - 48)) := by
        simp [readStep, ha]
      rw [hstep] at h
      intro c hc
      rcases List.mem_cons.1 hc with rfl | hc1
      · exact ha
      · exact ih _ h c hc1

theorem readDigits_digits (s : GoString) (m : Nat) (h : readDigits s = some m) :
    ∀ c ∈ s, c.isDigit = true := by
  cases s with
  | nil => intro c hc; cases hc
  | cons a as =>
    have h1 : (a :: as).foldl readStep (some 0) = some m := h
    exact readStep_fold_digits (a :: as) 0 m h1

/-- The runtime `natRuntime` rejects, as Go does, a text that begins or ends
with a whitespace character. -/
theorem natRuntime_rejects_space (s : GoString) (ws : Char) (hws : isOtherSpace ws = true)
    (h : s.head? = some ws ∨ s.getLast? = some ws) : (natRuntime.ParseFloat s).2 ≠ none := by
  have hmem : ws ∈ s := by
    rcases h with h | h
    · exact List.mem_of_mem_head? h
    · exact List.mem_of_mem_getLast? h
  have hnd := isOtherSpace_not_digit ws hws
  cases hr : readDigits s with
  | none => simp [natRuntime, hr]
  | some m =>
    have := readDigits_digits s m hr ws hmem
    rw [hnd] at this
    cases this

/-- C19: `parseApache2Status` trims only the space U+0020 from the right
side. When `ParseFloat` rejects, as Go does, a text that begins or ends with
another whitespace character, a recognized line whose value is preceded or
followed by such a character (carriage return, tab) makes the call return a
numeric-format error; the trimmed text is the text between the spaces; and a
recognized line with only spaces around a value that `ParseFloat` accepts is
accepted, the value being stored. -/
theorem parseApache2Status_trims_spaces_only (doc : GoString) (p : GoMap F)
    (hlib : ∀ s ws, isOtherSpace ws = true → (s.head? = some ws ∨ s.getLast? = some ws) →
      (R.ParseFloat s).2 ≠ none)
    (hcolon : ∀ line ∈ linesOf doc, mapGet Params (leftSide line) ≠ none →
      line.count ':' = 1)
    (hbad : ∃ line ∈ linesOf doc, mapGet Params (leftSide line) ≠ none ∧
      ∃ pad1 s pad2 ws, rightSide line = pad1 ++ s ++ pad2 ∧
        (∀ c ∈ pad1, c = ' ') ∧ (∀ c ∈ pad2, c = ' ') ∧
        s.head? ≠ some ' ' ∧ s.getLast? ≠ some ' ' ∧ isOtherSpace ws = true ∧
        (s.head? = some ws ∨ s.getLast? = some ws)) :
    (∃ p1 ne, parseApache2Status R doc p = Exec.ret (p1, some (GoError.numError ne))) ∧
    (∀ pad1 s pad2, (∀ c ∈ pad1, c = ' ') → (∀ c ∈ pad2, c = ' ') →
      s.head? ≠ some ' ' → s.getLast? ≠ some ' ' →
      strings.Trim (pad1 ++ s ++ pad2) ' ' = s) ∧
    (∀ line rest q name pad1 value pad2, mapGet Params (leftSide line) = some name →
      line.count ':' = 1 → rightSide line = pad1 ++ value ++ pad2 →
      (∀ c ∈ pad1, c = ' ') → (∀ c ∈ pad2, c = ' ') →
      value.head? ≠ some ' ' → value.getLast? ≠ some ' ' →
      (R.ParseFloat value).2 = none →
      statusLoop R (line :: rest) q
        = statusLoop R rest (mapSet q name (R.ParseFloat value).1)) := by
  refine ⟨?_, Trim_pad, ?_⟩
  · obtain ⟨line, hl, hrec, pad1, s, pad2, ws, hr, h1, h2, hh, hlast, hws, hend⟩ := hbad
    have hreject : (R.ParseFloat (strings.Trim (rightSide line) ' ')).2 ≠ none := by
      rw [hr, Trim_pad pad1 s pad2 h1 h2 hh hlast]
      exact hlib s ws hws hend
    obtain ⟨p1, ne, hloop, _⟩ :=
      statusLoop_numError R (linesOf doc) p hcolon ⟨line, hl, hrec, hreject⟩
    refine ⟨p1, ne, ?_⟩
    unfold parseApache2Status
    unfold linesOf at hloop
    rw [hloop]
  · intro line rest q name pad1 value pad2 hkey hcount hr h1 h2 hh hlast hpf
    rw [statusLoop_step R line rest q name hkey (colon_mem_of_count line hcount),
      leftSide_rightSide_of_count line hcount, hr, Trim_pad pad1 value pad2 h1 h2 hh hlast,
      hpf]

/-- Witness of C19: the line `BusyWorkers: 3` ended by a carriage return is
rejected, and with spaces only around the value it is accepted. -/
theorem parseApache2Status_trims_spaces_only_witness :
    (∃ p1 ne, parseApache2Status natRuntime "BusyWorkers: 3\r".toList []
        = Exec.ret (p1, some (GoError.numError ne))) ∧
    parseApache2Status natRuntime "BusyWorkers:   3  ".toList []
      = Exec.ret ([("Workers.busy_workers".toList, 3)], none) ∧
    parseApache2Status natRuntime "BusyWorkers: \t3".toList []
      = Exec.ret ([("Workers.busy_workers".toList, 0)],
          some (GoError.numError ⟨"ParseFloat".toList, "\t3".toList, "invalid syntax".toList⟩)) :=
  ⟨(parseApache2Status_trims_spaces_only natRuntime "BusyWorkers: 3\r".toList []
      natRuntime_rejects_space (by decide)
      ⟨"BusyWorkers: 3\r".toList, by decide, by decide,
        [' '], ['3', '\r'], [], '\r', by decide, by decide, by simp, by decide, by decide,
        by decide, Or.inr (by decide)⟩).1,
   by decide, by decide⟩

end Trimming

end MultiApache2
